import Mathlib

/-!
Verification development for the spring-test text-processing core of the
Sushma application.  The Python sources (`utils/text_parser.py`,
`utils/constants.py`, `ui/specifications_panel.py`,
`services/settings_service.py`, `models/data_models.py`) are shallowly
embedded below: strings become `String`/`List Char`, Python dicts become
association lists with dict-style insertion semantics, Python floats become
`ℚ` (the claims under study concern which values are carried, not binary
rounding), and regular expressions are hand-compiled into deterministic
scanning functions that mirror the search/backtracking behaviour of the
specific patterns in the source.  A function that can raise in Python is
embedded with an `Option` result, `none` marking the raising executions.
-/

/-- Python's `\s` class restricted to ASCII, which is all the embedded
patterns ever meet. -/
def pyIsSpace (c : Char) : Bool :=
  c = ' ' ∨ c = '\t' ∨ c = '\n' ∨ c = '\r' ∨ c = '\x0b' ∨ c = '\x0c'

/-- Word characters for Python's `\b` boundary (`[A-Za-z0-9_]`). -/
def pyIsWord (c : Char) : Bool :=
  c.isAlpha ∨ c.isDigit ∨ c = '_'

/-- ASCII lowercasing, as CPython's casefolding behaves on the ASCII range
the embedded patterns live in. -/
def lowerChar (c : Char) : Char :=
  if c.isUpper then Char.ofNat (c.toNat + 32) else c

/-- Case-insensitive character comparison against a pre-lowercased pattern
character (all `re.IGNORECASE` patterns are transcribed in lowercase). -/
def ciEq (c p : Char) : Bool := lowerChar c = p

/-- Case-insensitively drop a (lowercase) literal from the front of the text,
returning the rest on success. -/
def dropLitCI : List Char → List Char → Option (List Char)
  | [], s => some s
  | _ :: _, [] => none
  | p :: ps, c :: cs => if ciEq c p then dropLitCI ps cs else none

/-- Case-sensitively drop a literal from the front of the text. -/
def dropLitCS : List Char → List Char → Option (List Char)
  | [], s => some s
  | _ :: _, [] => none
  | p :: ps, c :: cs => if c = p then dropLitCS ps cs else none

/-- Whether the text begins with the given literal (case-sensitive). -/
def startsWithCS (p s : List Char) : Bool := (dropLitCS p s).isSome

/-- Case-sensitive substring occurrence, Python's `needle in haystack`. -/
def subCS (p : List Char) : List Char → Bool
  | [] => startsWithCS p []
  | c :: cs => startsWithCS p (c :: cs) || subCS p cs

/-- Python `str.strip()` (both ends, default whitespace). -/
def pyStrip (s : List Char) : List Char :=
  ((s.dropWhile pyIsSpace).reverse.dropWhile pyIsSpace).reverse

/-- Python `str.lower()` on the character list (ASCII suffices here). -/
def pyLower (s : List Char) : List Char := s.map lowerChar

/-! ### Python-dict association lists

Rows of the sequence table and parsed field maps are Python dicts; we embed
them as association lists whose update operation mutates the first matching
key in place and appends fresh keys at the end, exactly like dict assignment
preserving insertion order. -/

/-- Dict lookup: value at the first matching key. -/
def dget? (s : List (String × String)) (k : String) : Option String :=
  match s with
  | [] => none
  | (k1, v1) :: t => if k1 = k then some v1 else dget? t k

/-- Dict assignment: update in place or append at the end. -/
def dset (s : List (String × String)) (k : String) (v : String) :
    List (String × String) :=
  match s with
  | [] => [(k, v)]
  | (k1, v1) :: t => if k1 = k then (k, v) :: t else (k1, v1) :: dset t k v

/-- Dict deletion of a key (`del row["cmd"]`). -/
def ddel (s : List (String × String)) (k : String) : List (String × String) :=
  match s with
  | [] => []
  | (k1, v1) :: t => if k1 = k then t else (k1, v1) :: ddel t k

/-- The key list of a dict, in insertion order. -/
def dkeys (s : List (String × String)) : List String := s.map Prod.fst

theorem dget?_dset_self (s : List (String × String)) (k v : String) :
    dget? (dset s k v) k = some v := by
  induction s with
  | nil => simp [dset, dget?]
  | cons h t ih =>
    obtain ⟨k1, v1⟩ := h
    by_cases hk : k1 = k <;> simp [dset, dget?, hk, ih]

theorem dget?_dset_ne (s : List (String × String)) (k v : String) {k2 : String}
    (h : k2 ≠ k) : dget? (dset s k v) k2 = dget? s k2 := by
  induction s with
  | nil => simp [dset, dget?, Ne.symm h]
  | cons hd t ih =>
    obtain ⟨k1, v1⟩ := hd
    by_cases hk : k1 = k
    · subst hk
      simp [dset, dget?, Ne.symm h]
    · simp only [dset, if_neg hk, dget?]
      by_cases hk2 : k1 = k2 <;> simp [hk2, ih]

theorem dset_same {s : List (String × String)} {k v : String}
    (h : dget? s k = some v) : dset s k v = s := by
  induction s with
  | nil => simp [dget?] at h
  | cons hd t ih =>
    obtain ⟨k1, v1⟩ := hd
    by_cases hk : k1 = k
    · subst hk
      simp [dget?] at h
      simp [dset, h]
    · simp [dget?, hk] at h
      simp [dset, hk, ih h]

theorem dset_of_not_mem {s : List (String × String)} {k : String}
    (h : k ∉ dkeys s) (v : String) : dset s k v = s ++ [(k, v)] := by
  induction s with
  | nil => simp [dset]
  | cons hd t ih =>
    obtain ⟨k1, v1⟩ := hd
    simp [dkeys] at h
    simp [dset, Ne.symm h.1, ih (by simpa [dkeys] using h.2)]

theorem dkeys_dset (s : List (String × String)) (k v : String) :
    dkeys (dset s k v) = if k ∈ dkeys s then dkeys s else dkeys s ++ [k] := by
  induction s with
  | nil => simp [dset, dkeys]
  | cons hd t ih =>
    obtain ⟨k1, v1⟩ := hd
    by_cases hk : k1 = k
    · subst hk
      simp [dset, dkeys]
    · simp only [dset, if_neg hk, dkeys, List.map_cons] at *
      rw [ih]
      have hne : ¬ k = k1 := fun h => hk (Eq.symm h)
      by_cases hm : k ∈ List.map Prod.fst t <;> simp [hm, if_neg hne, hne]

theorem dget?_eq_none_iff {s : List (String × String)} {k : String} :
    dget? s k = none ↔ k ∉ dkeys s := by
  induction s with
  | nil => simp [dget?, dkeys]
  | cons hd t ih =>
    obtain ⟨k1, v1⟩ := hd
    by_cases hk : k1 = k
    · subst hk
      simp [dget?, dkeys]
    · simp [dget?, dkeys, hk, ih, Ne.symm hk]

theorem dget?_isSome_of_mem {s : List (String × String)} {k : String}
    (h : k ∈ dkeys s) : (dget? s k).isSome := by
  cases hv : dget? s k with
  | none => exact absurd h (dget?_eq_none_iff.mp hv)
  | some v => rfl

theorem nodup_dkeys_dset {s : List (String × String)} (k v : String)
    (h : (dkeys s).Nodup) : (dkeys (dset s k v)).Nodup := by
  rw [dkeys_dset]
  split_ifs with hm
  · exact h
  · simpa [List.nodup_append] using ⟨h, hm⟩

/-! ### `utils/text_parser.py` — `standardize_sequence_data`

The per-row loop body of `standardize_sequence_data` is embedded as a
composition of steps matching the source blocks: column renaming, the
(dead) lowercase-`cmd` fixup, description canonicalization, tolerance
reformatting, condition unit-stripping, missing-column filling.  Rows carry
string values: the source `str(...)`s values before inspecting them and the
claims under study concern the string-shaped fields. -/

/-- `column_map.get(key, key)`: the synonym-to-canonical column renaming. -/
def column_map (k : String) : String :=
  if k = "Cmd" then "CMD"
  else if k = "Command" then "CMD"
  else if k = "cmd" then "CMD"
  else if k = "Units" then "Unit"
  else if k = "unit" then "Unit"
  else if k = "Speed" then "Speed rpm"
  else k

/-- `required_columns` from the source. -/
def required_columns : List String :=
  ["Row", "CMD", "Description", "Condition", "Unit", "Tolerance", "Speed rpm"]

/-- `description_map.get(cmd)`: command code to standard description. -/
def description_map (cmd : String) : Option String :=
  if cmd = "ZF" then some "Zero Force"
  else if cmd = "TH" then some "Search Contact"
  else if cmd = "FL(P)" then some "Measure Free Length-Position"
  else if cmd = "Mv(P)" then some "Move to Position"
  else if cmd = "Fr(P)" then some "Force @ Position"
  else if cmd = "Scrag" then some "Scragging"
  else if cmd = "TD" then some "Time Delay"
  else if cmd = "PMsg" then some "User Message"
  else none

/-- Greedy digit run at the head of the text (`\d*`): the run and the rest. -/
def digitRun : List Char → List Char × List Char
  | [] => ([], [])
  | c :: cs =>
    if c.isDigit then
      let p := digitRun cs
      (c :: p.1, p.2)
    else ([], c :: cs)

/-- Greedy parse of `\d+(?:\.\d+)?` at the head of the text, returning the
matched token and the rest. -/
def numTok (s : List Char) : Option (List Char × List Char) :=
  match digitRun s with
  | ([], _) => none
  | (d :: ds, r1) =>
    match r1 with
    | '.' :: r2 =>
      match digitRun r2 with
      | ([], _) => some (d :: ds, r1)
      | (e :: es, r3) => some ((d :: ds) ++ '.' :: e :: es, r3)
    | _ => some (d :: ds, r1)

/-- Attempt `(\d+(?:\.\d+)?),(\d+(?:\.\d+)?)\)` right after an opening
parenthesis, returning the two captured numbers. -/
def tolParenHere (cs : List Char) : Option (List Char × List Char) :=
  match numTok cs with
  | none => none
  | some (g2, r2) =>
    if r2.head? = some ',' then
      match numTok r2.tail with
      | none => none
      | some (g3, r4) => if r4.head? = some ')' then some (g2, g3) else none
    else none

/-- Scan for the `\((\d+(?:\.\d+)?),(\d+(?:\.\d+)?)\)` completion of the
tolerance pattern: each `(` is tried in turn, mirroring the lazy `.*?\(`. -/
def tolParen : List Char → Option (List Char × List Char)
  | [] => none
  | c :: cs =>
    if c = '(' then
      match tolParenHere cs with
      | none => tolParen cs
      | some g => some g
    else tolParen cs

/-- Scan for the first start position where `(\d+(?:\.\d+)?)` matches and the
parenthesised pair completes afterwards, mirroring the backtracking of
`.*?(\d+(?:\.\d+)?).*?\(...\)`. -/
def tolScan : List Char → Option (List Char × List Char × List Char)
  | [] => none
  | c :: cs =>
    match numTok (c :: cs) with
    | none => tolScan cs
    | some (g1, r1) =>
      match tolParen r1 with
      | none => tolScan cs
      | some (g2, g3) => some (g1, g2, g3)

/-- The groups of `re.match(r'.*?(\d+(?:\.\d+)?).*?\((\d+...),(\d+...)\)', s)`.
Without `re.DOTALL` the dots cannot cross a newline, so the whole match lives
in the first line. -/
def tolerance_groups (s : List Char) : Option (List Char × List Char × List Char) :=
  tolScan (s.takeWhile (fun c => c ≠ '\n'))

/-- Group of `re.match(r'(\d+(?:\.\d+)?)', s)`: the leading numeric token. -/
def leadNum (s : List Char) : Option (List Char) := (numTok s).map Prod.fst

/-- `re.match(r'^R\d+,\d+$', s)` — loop/scrag back-references such as
`R03,2`.  Python's `$` also accepts a single trailing newline. -/
def rMatchRef : List Char → Bool
  | [] => false
  | c :: r1 =>
    if c = 'R' then
      match digitRun r1 with
      | ([], _) => false
      | (_ :: _, r2) =>
        match r2 with
        | ',' :: r3 =>
          match digitRun r3 with
          | ([], _) => false
          | (_ :: _, r4) => r4 = [] ∨ r4 = ['\n']
        | _ => false
    else false

/-- Column-name normalization: `std_row[column_map.get(key, key)] = value`
over the row's items, into a fresh dict. -/
def renameRow (row : List (String × String)) : List (String × String) :=
  row.foldl (fun acc kv => dset acc (column_map kv.1) kv.2) []

/-- The (dead, since `column_map` already maps `"cmd"`) lowercase-`cmd`
fixup: `std_row["CMD"] = std_row["cmd"]; del std_row["cmd"]`. -/
def stepCmdFix (s : List (String × String)) : List (String × String) :=
  match dget? s "cmd" with
  | some v => ddel (dset s "CMD" v) "cmd"
  | none => s

/-- The description value computed by the description-canonicalization block
for a command `cmd` and current description `desc`. -/
def descFix (cmd desc : String) : String :=
  if cmd = "Mv(P)" ∧ desc ≠ "" then
    if subCS "L1".data desc.data then "L1"
    else if subCS "L2".data desc.data then "L2"
    else (description_map cmd).getD desc
  else (description_map cmd).getD desc

/-- The description-canonicalization assignment, given the row's `CMD`. -/
def stepDescVal (s : List (String × String)) (cmd : String) : List (String × String) :=
  dset s "Description" (descFix cmd ((dget? s "Description").getD ""))

/-- Description canonicalization: runs only when the row has a `CMD` key. -/
def stepDesc (s : List (String × String)) : List (String × String) :=
  match dget? s "CMD" with
  | none => s
  | some cmd => stepDescVal s cmd

/-- The tolerance value computed by the tolerance-reformatting block. -/
def tolFix (t : String) : String :=
  if t ≠ "" ∧ subCS "nominal".data (pyLower t.data) then
    match tolerance_groups t.data with
    | some (n, mn, mx) =>
      String.mk n ++ "(" ++ String.mk mn ++ "," ++ String.mk mx ++ ")"
    | none => t
  else t

/-- The tolerance-reformatting assignment, given the row's tolerance value. -/
def stepTolVal (s : List (String × String)) (t : String) : List (String × String) :=
  if t ≠ "" ∧ subCS "nominal".data (pyLower t.data) then
    match tolerance_groups t.data with
    | none => s
    | some (n, mn, mx) =>
      dset s "Tolerance" (String.mk n ++ "(" ++ String.mk mn ++ "," ++ String.mk mx ++ ")")
  else s

/-- Tolerance reformatting: `"nominal(min,max)"`-style values are rewritten
to `value(min,max)` when the pattern parses. -/
def stepTol (s : List (String × String)) : List (String × String) :=
  match dget? s "Tolerance" with
  | none => s
  | some t => stepTolVal s t

/-- The condition value computed by the unit-stripping block. -/
def condFix (c : String) : String :=
  if c ≠ "" ∧ ¬ rMatchRef c.data then
    match leadNum c.data with
    | some m => if String.mk m ≠ c then String.mk m else c
    | none => c
  else c

/-- The condition unit-stripping assignment, given the row's condition. -/
def stepCondVal (s : List (String × String)) (c : String) : List (String × String) :=
  if c ≠ "" ∧ ¬ rMatchRef c.data then
    match leadNum c.data with
    | none => s
    | some m => if String.mk m ≠ c then dset s "Condition" (String.mk m) else s
  else s

/-- Condition unit-stripping: keep just the leading numeric token unless the
value is a loop/scrag back-reference. -/
def stepCond (s : List (String × String)) : List (String × String) :=
  match dget? s "Condition" with
  | none => s
  | some c => stepCondVal s c

/-- `if col not in std_row: std_row[col] = ""`. -/
def fillCol (s : List (String × String)) (col : String) : List (String × String) :=
  if col ∈ dkeys s then s else dset s col ""

/-- Add any missing required columns with the empty string. -/
def stepFill (s : List (String × String)) : List (String × String) :=
  required_columns.foldl fillCol s

/-- The whole loop body of `standardize_sequence_data` for one row. -/
def stdRow (row : List (String × String)) : List (String × String) :=
  stepFill (stepCond (stepTol (stepDesc (stepCmdFix (renameRow row)))))

/-- `standardize_sequence_data`: standardize every row of the parsed data. -/
def standardize_sequence_data (data : List (List (String × String))) :
    List (List (String × String)) :=
  data.map stdRow

example : standardize_sequence_data [[("Foo", "x")]] =
    [[("Foo", "x"), ("Row", ""), ("CMD", ""), ("Description", ""),
      ("Condition", ""), ("Unit", ""), ("Tolerance", ""), ("Speed rpm", "")]] := by
  decide

example : stdRow [("Cmd", "Mv(P)"), ("Description", "go to L2 now")] =
    [("CMD", "Mv(P)"), ("Description", "L2"), ("Row", ""), ("Condition", ""),
     ("Unit", ""), ("Tolerance", ""), ("Speed rpm", "")] := by decide

example : tolFix "Nominal 50(40,60)" = "50(40,60)" := by decide

example : tolFix "nominal(40,60)" = "nominal(40,60)" := by decide

example : condFix "40mm" = "40" := by decide

example : condFix "R03,2" = "R03,2" := by decide

/-! ### Facts about the scanners, used by the idempotence proofs -/

theorem digitRun_digits (s : List Char) : ∀ c ∈ (digitRun s).1, c.isDigit := by
  induction s with
  | nil => simp [digitRun]
  | cons c cs ih =>
    by_cases h : c.isDigit
    · simpa [digitRun, h] using ih
    · simp [digitRun, h]

theorem digitRun_all {s : List Char} (h : ∀ c ∈ s, c.isDigit) : digitRun s = (s, []) := by
  induction s with
  | nil => simp [digitRun]
  | cons c cs ih =>
    have hc : c.isDigit := h c (by simp)
    have ht : digitRun cs = (cs, []) := ih fun x hx => h x (by simp [hx])
    simp [digitRun, hc, ht]

theorem digitRun_stop {a : List Char} (ha : ∀ c ∈ a, c.isDigit) {b : Char}
    (hb : ¬ b.isDigit) (r : List Char) : digitRun (a ++ b :: r) = (a, b :: r) := by
  induction a with
  | nil => simp [digitRun, hb]
  | cons c cs ih =>
    have hc : c.isDigit := ha c (by simp)
    have ht := ih fun x hx => ha x (by simp [hx])
    simp [digitRun, hc, ht]

theorem numTok_spec {s tok rest : List Char} (h : numTok s = some (tok, rest)) :
    ((∃ d ds, tok = d :: ds) ∧ ∀ c ∈ tok, c.isDigit) ∨
    (∃ d ds e es, tok = (d :: ds) ++ '.' :: e :: es ∧ (∀ c ∈ d :: ds, c.isDigit) ∧
      ∀ c ∈ e :: es, c.isDigit) := by
  unfold numTok at h
  split at h
  · exact absurd h (by simp)
  next d ds r1 heq =>
    have hdig : ∀ c ∈ d :: ds, c.isDigit := by
      have := digitRun_digits s
      rw [heq] at this
      exact this
    split at h
    next r2 =>
      split at h
      next heq2 =>
        obtain ⟨h1, _⟩ := Prod.mk.injEq .. ▸ (Option.some.injEq .. ▸ h)
        exact Or.inl ⟨⟨d, ds, h1.symm⟩, h1 ▸ hdig⟩
      next e es r3 heq2 =>
        obtain ⟨h1, _⟩ := Prod.mk.injEq .. ▸ (Option.some.injEq .. ▸ h)
        have hdig2 : ∀ c ∈ e :: es, c.isDigit := by
          have := digitRun_digits r2
          rw [heq2] at this
          exact this
        exact Or.inr ⟨d, ds, e, es, h1.symm, hdig, hdig2⟩
    next hne =>
      obtain ⟨h1, _⟩ := Prod.mk.injEq .. ▸ (Option.some.injEq .. ▸ h)
      exact Or.inl ⟨⟨d, ds, h1.symm⟩, h1 ▸ hdig⟩

theorem numTok_chars {s tok rest : List Char} (h : numTok s = some (tok, rest)) :
    ∀ c ∈ tok, c.isDigit ∨ c = '.' := by
  rcases numTok_spec h with ⟨_, hdig⟩ | ⟨d, ds, e, es, htok, hd1, hd2⟩
  · exact fun c hc => Or.inl (hdig c hc)
  · intro c hc
    rw [htok] at hc
    rcases List.mem_append.mp hc with hc | hc
    · exact Or.inl (hd1 c hc)
    · rcases List.mem_cons.mp hc with hc | hc
      · exact Or.inr hc
      · exact Or.inl (hd2 c hc)

theorem numTok_head {s tok rest : List Char} (h : numTok s = some (tok, rest)) :
    ∃ d ds, tok = d :: ds ∧ d.isDigit := by
  rcases numTok_spec h with ⟨⟨d, ds, htok⟩, hdig⟩ | ⟨d, ds, e, es, htok, hd1, _⟩
  · exact ⟨d, ds, htok, hdig d (htok ▸ by simp)⟩
  · exact ⟨d, ds ++ '.' :: e :: es, by simpa using htok, hd1 d (by simp)⟩

theorem numTok_full {s tok rest : List Char} (h : numTok s = some (tok, rest)) :
    numTok tok = some (tok, []) := by
  rcases numTok_spec h with ⟨⟨d, ds, htok⟩, hdig⟩ | ⟨d, ds, e, es, htok, hd1, hd2⟩
  · subst htok
    unfold numTok
    rw [digitRun_all hdig]
  · subst htok
    unfold numTok
    rw [digitRun_stop hd1 (by decide)]
    have h2 : digitRun (e :: es) = (e :: es, []) := digitRun_all hd2
    simp [h2]

theorem subCS_head_mem {p0 : Char} {ps s : List Char}
    (h : subCS (p0 :: ps) s = true) : p0 ∈ s := by
  induction s with
  | nil => simp [subCS, startsWithCS, dropLitCS] at h
  | cons c cs ih =>
    simp only [subCS, Bool.or_eq_true] at h
    rcases h with h | h
    · by_cases hc : c = p0
      · simp [hc]
      · simp [startsWithCS, dropLitCS, hc] at h
    · exact List.mem_cons_of_mem _ (ih h)

theorem lowerChar_eq_of_isDigit {c : Char} (h : c.isDigit = true) : lowerChar c = c := by
  have hup : c.isUpper = false := by
    simp only [Char.isDigit, Bool.and_eq_true, decide_eq_true_eq] at h
    simp only [Char.isUpper, Bool.and_eq_false_iff, decide_eq_false_iff_not]
    left
    intro hge
    have h1 : c.val.toNat ≤ 57 := by simpa [UInt32.le_def, BitVec.le_def] using h.2
    have h2 : 65 ≤ c.val.toNat := by simpa [UInt32.le_def, BitVec.le_def] using hge
    omega
  simp [lowerChar, hup]

theorem lowerChar_render_ne_n {c : Char}
    (h : c.isDigit ∨ c = '.' ∨ c = '(' ∨ c = ')' ∨ c = ',') : lowerChar c ≠ 'n' := by
  rcases h with h | h | h | h | h
  · rw [lowerChar_eq_of_isDigit h]
    intro he
    rw [he] at h
    exact absurd h (by decide)
  all_goals subst h; decide

theorem tolParenHere_chars {cs g2 g3 : List Char} (h : tolParenHere cs = some (g2, g3)) :
    (∀ c ∈ g2, c.isDigit ∨ c = '.') ∧ (∀ c ∈ g3, c.isDigit ∨ c = '.') := by
  unfold tolParenHere at h
  split at h
  · simp at h
  · rename_i g2a r2 heq
    split_ifs at h with hcomma
    · split at h
      · simp at h
      · rename_i g3a r4 heq2
        split_ifs at h with hparen
        simp only [Option.some.injEq, Prod.mk.injEq] at h
        obtain ⟨h1, h2⟩ := h
        exact ⟨h1 ▸ numTok_chars heq, h2 ▸ numTok_chars heq2⟩

theorem tolParen_chars : ∀ {s g2 g3 : List Char}, tolParen s = some (g2, g3) →
    (∀ c ∈ g2, c.isDigit ∨ c = '.') ∧ (∀ c ∈ g3, c.isDigit ∨ c = '.') := by
  intro s
  induction s with
  | nil => intro g2 g3 h; simp [tolParen] at h
  | cons c cs ih =>
    intro g2 g3 h
    by_cases hc : c = '('
    · simp only [tolParen, if_pos hc] at h
      split at h
      · exact ih h
      · rename_i g heq
        obtain rfl : g = (g2, g3) := by simpa using h
        exact tolParenHere_chars heq
    · simp only [tolParen, if_neg hc] at h
      exact ih h

theorem tolScan_chars : ∀ {s g1 g2 g3 : List Char}, tolScan s = some (g1, g2, g3) →
    (∀ c ∈ g1, c.isDigit ∨ c = '.') ∧ (∀ c ∈ g2, c.isDigit ∨ c = '.') ∧
    (∀ c ∈ g3, c.isDigit ∨ c = '.') := by
  intro s
  induction s with
  | nil => intro g1 g2 g3 h; simp [tolScan] at h
  | cons c cs ih =>
    intro g1 g2 g3 h
    simp only [tolScan] at h
    split at h
    · exact ih h
    · rename_i tok r1 heq
      split at h
      · exact ih h
      · rename_i ga gb heq2
        simp only [Option.some.injEq, Prod.mk.injEq] at h
        obtain ⟨h1, h2, h3⟩ := h
        have hp := tolParen_chars heq2
        exact ⟨h1 ▸ numTok_chars heq, h2 ▸ hp.1, h3 ▸ hp.2⟩

theorem tolerance_groups_chars {s g1 g2 g3 : List Char}
    (h : tolerance_groups s = some (g1, g2, g3)) :
    (∀ c ∈ g1, c.isDigit ∨ c = '.') ∧ (∀ c ∈ g2, c.isDigit ∨ c = '.') ∧
    (∀ c ∈ g3, c.isDigit ∨ c = '.') :=
  tolScan_chars h

theorem rMatchRef_digit_head {d : Char} (hd : d.isDigit = true) (r : List Char) :
    rMatchRef (d :: r) = false := by
  have hne : d ≠ 'R' := by
    intro he
    rw [he] at hd
    exact absurd hd (by decide)
  simp [rMatchRef, hne]

theorem render_chars {n mn mx : List Char}
    (hn : ∀ c ∈ n, c.isDigit ∨ c = '.') (hmn : ∀ c ∈ mn, c.isDigit ∨ c = '.')
    (hmx : ∀ c ∈ mx, c.isDigit ∨ c = '.') :
    ∀ c ∈ (String.mk n ++ "(" ++ String.mk mn ++ "," ++ String.mk mx ++ ")").data,
      c.isDigit ∨ c = '.' ∨ c = '(' ∨ c = ')' ∨ c = ',' := by
  intro c hc
  simp only [String.data_append, List.mem_append] at hc
  rcases hc with ((((hc | hc) | hc) | hc) | hc) | hc
  · rcases hn c hc with h | h
    · exact Or.inl h
    · exact Or.inr (Or.inl h)
  · obtain rfl : c = '(' := by simpa using hc
    simp
  · rcases hmn c hc with h | h
    · exact Or.inl h
    · exact Or.inr (Or.inl h)
  · obtain rfl : c = ',' := by simpa using hc
    simp
  · rcases hmx c hc with h | h
    · exact Or.inl h
    · exact Or.inr (Or.inl h)
  · obtain rfl : c = ')' := by simpa using hc
    simp

theorem subCS_nominal_render {n mn mx : List Char}
    (hn : ∀ c ∈ n, c.isDigit ∨ c = '.') (hmn : ∀ c ∈ mn, c.isDigit ∨ c = '.')
    (hmx : ∀ c ∈ mx, c.isDigit ∨ c = '.') :
    subCS "nominal".data
      (pyLower (String.mk n ++ "(" ++ String.mk mn ++ "," ++ String.mk mx ++ ")").data) = false := by
  cases hsub : subCS "nominal".data
      (pyLower (String.mk n ++ "(" ++ String.mk mn ++ "," ++ String.mk mx ++ ")").data) with
  | false => rfl
  | true =>
    exfalso
    have hnom : "nominal".data = 'n' :: "ominal".data := rfl
    rw [hnom] at hsub
    have hmem := subCS_head_mem hsub
    simp only [pyLower, List.mem_map] at hmem
    obtain ⟨c, hc, hlc⟩ := hmem
    have hcls := render_chars hn hmn hmx c hc
    rcases hcls with h | h
    · exact lowerChar_render_ne_n (Or.inl h) hlc
    · exact lowerChar_render_ne_n (Or.inr h) hlc

theorem tolFix_empty : tolFix "" = "" := by decide

theorem tolFix_idem (t : String) : tolFix (tolFix t) = tolFix t := by
  by_cases h1 : t ≠ "" ∧ subCS "nominal".data (pyLower t.data) = true
  · rcases heq : tolerance_groups t.data with _ | ⟨n, mn, mx⟩
    · have ht : tolFix t = t := by
        unfold tolFix
        rw [if_pos h1, heq]
      rw [ht]
      exact ht
    · have hr : tolFix t = String.mk n ++ "(" ++ String.mk mn ++ "," ++ String.mk mx ++ ")" := by
        unfold tolFix
        rw [if_pos h1, heq]
      rw [hr]
      obtain ⟨hn, hmn, hmx⟩ := tolerance_groups_chars heq
      unfold tolFix
      rw [if_neg]
      intro hcond
      rw [subCS_nominal_render hn hmn hmx] at hcond
      exact absurd hcond.2 (by simp)
  · have ht : tolFix t = t := by
      unfold tolFix
      rw [if_neg h1]
    rw [ht]
    exact ht

theorem condFix_empty : condFix "" = "" := by decide

theorem condFix_idem (c : String) : condFix (condFix c) = condFix c := by
  by_cases h1 : c ≠ "" ∧ ¬ rMatchRef c.data = true
  · rcases heq : leadNum c.data with _ | m
    · have hc : condFix c = c := by
        unfold condFix
        rw [if_pos h1, heq]
      rw [hc]
      exact hc
    · by_cases hm : String.mk m ≠ c
      · have hc : condFix c = String.mk m := by
          unfold condFix
          rw [if_pos h1, heq]
          show (if String.mk m ≠ c then String.mk m else c) = String.mk m
          rw [if_pos hm]
        rw [hc]
        obtain ⟨rest, hnum⟩ : ∃ r, numTok c.data = some (m, r) := by
          unfold leadNum at heq
          cases hnt : numTok c.data with
          | none => rw [hnt] at heq; simp at heq
          | some p =>
            rw [hnt] at heq
            obtain ⟨tok, r⟩ := p
            simp at heq
            exact ⟨r, by rw [heq]⟩

        obtain ⟨d, ds, hmds, hd⟩ := numTok_head hnum
        have hfull := numTok_full hnum
        have hdata : (String.mk m).data = m := rfl
        have hne : String.mk m ≠ "" := by
          intro he
          have hed := congrArg String.data he
          rw [hdata, hmds] at hed
          simp at hed
        have hrm : rMatchRef (String.mk m).data = false := by
          rw [hdata, hmds]
          exact rMatchRef_digit_head hd _
        have hlead : leadNum (String.mk m).data = some m := by
          rw [hdata]
          unfold leadNum
          rw [hfull]
          rfl
        unfold condFix
        rw [if_pos ⟨hne, by simp [hrm]⟩, hlead]
        show (if String.mk m ≠ String.mk m then String.mk m else String.mk m) = String.mk m
        rw [if_neg (by simp)]
      · have hc : condFix c = c := by
          unfold condFix
          rw [if_pos h1, heq]
          show (if String.mk m ≠ c then String.mk m else c) = c
          rw [if_neg hm]
        rw [hc]
        exact hc
  · have hc : condFix c = c := by
      unfold condFix
      rw [if_neg h1]
    rw [hc]
    exact hc

theorem descFix_idem (cmd d : String) : descFix cmd (descFix cmd d) = descFix cmd d := by
  by_cases hm : cmd = "Mv(P)"
  · subst hm
    by_cases hd : d = ""
    · subst hd
      decide
    · have h1 : descFix "Mv(P)" d =
          if subCS "L1".data d.data then "L1"
          else if subCS "L2".data d.data then "L2" else "Move to Position" := by
        unfold descFix
        rw [if_pos ⟨rfl, hd⟩]
        have hdm : description_map "Mv(P)" = some "Move to Position" := by decide
        rw [hdm]
        rfl
      rw [h1]
      split_ifs <;> decide
  · have hgen : ∀ x, descFix cmd x = (description_map cmd).getD x := by
      intro x
      unfold descFix
      rw [if_neg]
      intro hc
      exact hm hc.1
    rcases hdm : description_map cmd with _ | v
    · simp [hgen, hdm]
    · simp [hgen, hdm]

theorem descFix_empty_cmd (d : String) : descFix "" d = d := by
  unfold descFix
  rw [if_neg (by simp)]
  have : description_map "" = none := by decide
  rw [this]
  rfl

/-! ### Row invariants and per-step lemmas for the idempotence proof -/

theorem column_map_cases (k : String) :
    column_map k = k ∨ column_map k = "CMD" ∨ column_map k = "Unit" ∨
    column_map k = "Speed rpm" := by
  unfold column_map
  split_ifs <;> simp

theorem column_map_idem (k : String) : column_map (column_map k) = column_map k := by
  rcases column_map_cases k with h | h | h | h <;> rw [h] <;> first | exact h | decide

theorem column_map_ne_cmd (k : String) : column_map k ≠ "cmd" := by
  intro he
  rcases column_map_cases k with h | h | h | h
  · rw [h] at he
    rw [he] at h
    exact absurd h (by decide)
  all_goals rw [h] at he; exact absurd he (by decide)

/-- Invariant satisfied by every standardized row: unique keys, all of them
fixed points of the column renaming. -/
def RowOK (s : List (String × String)) : Prop :=
  (dkeys s).Nodup ∧ ∀ k ∈ dkeys s, column_map k = k

theorem RowOK_dset {s : List (String × String)} (h : RowOK s) {k : String}
    (hk : column_map k = k) (v : String) : RowOK (dset s k v) := by
  refine ⟨nodup_dkeys_dset _ _ h.1, ?_⟩
  intro k2 hk2
  rw [dkeys_dset] at hk2
  split_ifs at hk2 with hm
  · exact h.2 _ hk2
  · rcases List.mem_append.mp hk2 with hk2 | hk2
    · exact h.2 _ hk2
    · obtain rfl : k2 = k := by simpa using hk2
      exact hk

theorem renameRow_keys_sub :
    ∀ (l acc : List (String × String)),
      ∀ k ∈ dkeys (l.foldl (fun a kv => dset a (column_map kv.1) kv.2) acc),
        k ∈ dkeys acc ∨ ∃ kv, kv ∈ l ∧ k = column_map kv.1 := by
  intro l
  induction l with
  | nil => intro acc k hk; exact Or.inl hk
  | cons hd tl ih =>
    intro acc k hk
    simp only [List.foldl_cons] at hk
    rcases ih _ k hk with hmem | ⟨kv, hkv, hkeq⟩
    · rw [dkeys_dset] at hmem
      split_ifs at hmem with hsp
      · exact Or.inl hmem
      · rcases List.mem_append.mp hmem with hmem | hmem
        · exact Or.inl hmem
        · exact Or.inr ⟨hd, by simp, by simpa using hmem⟩
    · exact Or.inr ⟨kv, by simp [hkv], hkeq⟩

theorem renameRow_keys_nodup :
    ∀ (l acc : List (String × String)), (dkeys acc).Nodup →
      (dkeys (l.foldl (fun a kv => dset a (column_map kv.1) kv.2) acc)).Nodup := by
  intro l
  induction l with
  | nil => intro acc h; exact h
  | cons hd tl ih => intro acc h; exact ih _ (nodup_dkeys_dset _ _ h)

theorem RowOK_renameRow (r : List (String × String)) : RowOK (renameRow r) := by
  constructor
  · exact renameRow_keys_nodup r [] (by simp [dkeys])
  · intro k hk
    rcases renameRow_keys_sub r [] k hk with h | ⟨kv, _, hkeq⟩
    · simp [dkeys] at h
    · rw [hkeq]
      exact column_map_idem _

theorem not_cmd_mem_of_RowOK {s : List (String × String)} (h : RowOK s) :
    "cmd" ∉ dkeys s := by
  intro hm
  exact absurd (h.2 _ hm) (by decide)

theorem stepCmdFix_id {s : List (String × String)} (h : "cmd" ∉ dkeys s) :
    stepCmdFix s = s := by
  unfold stepCmdFix
  rw [dget?_eq_none_iff.mpr h]

theorem RowOK_stepDesc {s : List (String × String)} (h : RowOK s) : RowOK (stepDesc s) := by
  unfold stepDesc
  cases dget? s "CMD" with
  | none => exact h
  | some cmd => exact RowOK_dset h (by decide) _

theorem RowOK_stepTolVal {s : List (String × String)} (h : RowOK s) (t : String) :
    RowOK (stepTolVal s t) := by
  unfold stepTolVal
  split_ifs with hcond
  · cases tolerance_groups t.data with
    | none => exact h
    | some g =>
      obtain ⟨n, mn, mx⟩ := g
      exact RowOK_dset h (by decide) _
  · exact h

theorem RowOK_stepTol {s : List (String × String)} (h : RowOK s) : RowOK (stepTol s) := by
  unfold stepTol
  cases dget? s "Tolerance" with
  | none => exact h
  | some t => exact RowOK_stepTolVal h t

theorem RowOK_stepCondVal {s : List (String × String)} (h : RowOK s) (c : String) :
    RowOK (stepCondVal s c) := by
  unfold stepCondVal
  split_ifs with hcond
  · cases leadNum c.data with
    | none => exact h
    | some m =>
      show RowOK (if String.mk m ≠ c then dset s "Condition" (String.mk m) else s)
      by_cases hm : String.mk m ≠ c
      · rw [if_pos hm]
        exact RowOK_dset h (by decide) _
      · rw [if_neg hm]
        exact h
  · exact h

theorem RowOK_stepCond {s : List (String × String)} (h : RowOK s) : RowOK (stepCond s) := by
  unfold stepCond
  cases dget? s "Condition" with
  | none => exact h
  | some c => exact RowOK_stepCondVal h c

theorem RowOK_stepFill {s : List (String × String)} (h : RowOK s) : RowOK (stepFill s) := by
  have hgen : ∀ (cols : List String), (∀ col ∈ cols, column_map col = col) →
      ∀ s, RowOK s → RowOK (cols.foldl fillCol s) := by
    intro cols
    induction cols with
    | nil => intro _ s hs; exact hs
    | cons c cs ih =>
      intro hc s hs
      simp only [List.foldl_cons]
      apply ih (fun col hcol => hc col (by simp [hcol]))
      unfold fillCol
      split_ifs
      · exact hs
      · exact RowOK_dset hs (hc c (by simp)) _
  exact hgen required_columns (by decide) s h

theorem RowOK_stdRow (r : List (String × String)) : RowOK (stdRow r) := by
  unfold stdRow
  apply RowOK_stepFill
  apply RowOK_stepCond
  apply RowOK_stepTol
  apply RowOK_stepDesc
  rw [stepCmdFix_id (not_cmd_mem_of_RowOK (RowOK_renameRow r))]
  exact RowOK_renameRow r

theorem dget?_stepDescVal_ne (s : List (String × String)) (cmd : String) {k : String}
    (h : k ≠ "Description") : dget? (stepDescVal s cmd) k = dget? s k := by
  unfold stepDescVal
  exact dget?_dset_ne _ _ _ h

theorem dget?_stepDesc_ne (s : List (String × String)) {k : String}
    (h : k ≠ "Description") : dget? (stepDesc s) k = dget? s k := by
  unfold stepDesc
  cases dget? s "CMD" with
  | none => rfl
  | some cmd => exact dget?_stepDescVal_ne s cmd h

theorem dget?_stepTolVal_ne (s : List (String × String)) (t : String) {k : String}
    (h : k ≠ "Tolerance") : dget? (stepTolVal s t) k = dget? s k := by
  unfold stepTolVal
  split_ifs with hcond
  · cases tolerance_groups t.data with
    | none => rfl
    | some g =>
      obtain ⟨n, mn, mx⟩ := g
      exact dget?_dset_ne _ _ _ h
  · rfl

theorem dget?_stepTol_ne (s : List (String × String)) {k : String}
    (h : k ≠ "Tolerance") : dget? (stepTol s) k = dget? s k := by
  unfold stepTol
  cases dget? s "Tolerance" with
  | none => rfl
  | some t => exact dget?_stepTolVal_ne s t h

theorem dget?_stepCondVal_ne (s : List (String × String)) (c : String) {k : String}
    (h : k ≠ "Condition") : dget? (stepCondVal s c) k = dget? s k := by
  unfold stepCondVal
  split_ifs with hcond
  · cases leadNum c.data with
    | none => rfl
    | some m =>
      show dget? (if String.mk m ≠ c then dset s "Condition" (String.mk m) else s) k =
        dget? s k
      split_ifs with hm
      · exact dget?_dset_ne _ _ _ h
      · rfl
  · rfl

theorem dget?_stepCond_ne (s : List (String × String)) {k : String}
    (h : k ≠ "Condition") : dget? (stepCond s) k = dget? s k := by
  unfold stepCond
  cases dget? s "Condition" with
  | none => rfl
  | some c => exact dget?_stepCondVal_ne s c h

theorem dget?_stepDescVal_self (s : List (String × String)) (cmd : String) :
    dget? (stepDescVal s cmd) "Description" =
      some (descFix cmd ((dget? s "Description").getD "")) := by
  unfold stepDescVal
  exact dget?_dset_self _ _ _

theorem dget?_stepTolVal_self (s : List (String × String)) {t : String}
    (ht : dget? s "Tolerance" = some t) :
    dget? (stepTolVal s t) "Tolerance" = some (tolFix t) := by
  unfold stepTolVal
  split_ifs with hcond
  · rcases heq : tolerance_groups t.data with _ | ⟨n, mn, mx⟩
    · show dget? s "Tolerance" = some (tolFix t)
      rw [ht]
      have hfix : tolFix t = t := by
        unfold tolFix
        rw [if_pos hcond, heq]
      rw [hfix]
    · show dget? (dset s "Tolerance"
        (String.mk n ++ "(" ++ String.mk mn ++ "," ++ String.mk mx ++ ")")) "Tolerance" =
        some (tolFix t)
      rw [dget?_dset_self]
      have hfix : tolFix t =
          String.mk n ++ "(" ++ String.mk mn ++ "," ++ String.mk mx ++ ")" := by
        unfold tolFix
        rw [if_pos hcond, heq]
      rw [hfix]
  · rw [ht]
    have hfix : tolFix t = t := by
      unfold tolFix
      rw [if_neg hcond]
    rw [hfix]

theorem dget?_stepCondVal_self (s : List (String × String)) {c : String}
    (hc : dget? s "Condition" = some c) :
    dget? (stepCondVal s c) "Condition" = some (condFix c) := by
  unfold stepCondVal
  split_ifs with hcond
  · rcases heq : leadNum c.data with _ | m
    · show dget? s "Condition" = some (condFix c)
      rw [hc]
      have hfix : condFix c = c := by
        unfold condFix
        rw [if_pos hcond, heq]
      rw [hfix]
    · show dget? (if String.mk m ≠ c then dset s "Condition" (String.mk m) else s)
        "Condition" = some (condFix c)
      by_cases hm : String.mk m ≠ c
      · rw [if_pos hm, dget?_dset_self]
        have hfix : condFix c = String.mk m := by
          unfold condFix
          rw [if_pos hcond, heq]
          show (if String.mk m ≠ c then String.mk m else c) = String.mk m
          rw [if_pos hm]
        rw [hfix]
      · rw [if_neg hm, hc]
        have hfix : condFix c = c := by
          unfold condFix
          rw [if_pos hcond, heq]
          show (if String.mk m ≠ c then String.mk m else c) = c
          rw [if_neg hm]
        rw [hfix]
  · rw [hc]
    have hfix : condFix c = c := by
      unfold condFix
      rw [if_neg hcond]
    rw [hfix]

theorem dget?_fillCol (s : List (String × String)) (col k : String) :
    dget? (fillCol s col) k =
      if k = col ∧ dget? s k = none then some "" else dget? s k := by
  unfold fillCol
  by_cases hmem : col ∈ dkeys s
  · rw [if_pos hmem, if_neg]
    rintro ⟨rfl, hnone⟩
    exact absurd hmem (dget?_eq_none_iff.mp hnone)
  · rw [if_neg hmem]
    by_cases hk : k = col
    · subst hk
      rw [dget?_dset_self, if_pos ⟨rfl, dget?_eq_none_iff.mpr hmem⟩]
    · rw [dget?_dset_ne _ _ _ hk, if_neg (fun hc => hk hc.1)]

theorem dget?_foldl_fill (cols : List String) (s : List (String × String)) (k : String) :
    dget? (cols.foldl fillCol s) k =
      if k ∈ cols ∧ dget? s k = none then some "" else dget? s k := by
  induction cols generalizing s with
  | nil => simp
  | cons c cs ih =>
    simp only [List.foldl_cons]
    rw [ih, dget?_fillCol]
    by_cases hk : k = c
    · subst hk
      by_cases hn : dget? s k = none
      · have hinner : (if k = k ∧ dget? s k = none then some "" else dget? s k) =
            some "" := if_pos ⟨rfl, hn⟩
        rw [hinner, if_neg (fun hc => by simpa using hc.2), if_pos ⟨by simp, hn⟩]
      · have hinner : (if k = k ∧ dget? s k = none then some "" else dget? s k) =
            dget? s k := if_neg (fun hc => hn hc.2)
        rw [hinner, if_neg (fun hc => hn hc.2), if_neg (fun hc => hn hc.2)]
    · have hinner : (if k = c ∧ dget? s k = none then some "" else dget? s k) =
          dget? s k := if_neg (fun hc => hk hc.1)
      rw [hinner]
      have hcond : (k ∈ cs ∧ dget? s k = none) ↔ (k ∈ c :: cs ∧ dget? s k = none) := by
        constructor
        · rintro ⟨hm, hn⟩
          exact ⟨by simp [hm], hn⟩
        · rintro ⟨hm, hn⟩
          rcases List.mem_cons.mp hm with h | h
          · exact absurd h hk
          · exact ⟨h, hn⟩
      rw [if_congr hcond rfl rfl]

theorem dget?_stepFill (s : List (String × String)) (k : String) :
    dget? (stepFill s) k =
      if k ∈ required_columns ∧ dget? s k = none then some "" else dget? s k :=
  dget?_foldl_fill required_columns s k

theorem stepFill_id {s : List (String × String)}
    (h : ∀ col ∈ required_columns, col ∈ dkeys s) : stepFill s = s := by
  have hgen : ∀ (cols : List String) (s : List (String × String)),
      (∀ col ∈ cols, col ∈ dkeys s) → cols.foldl fillCol s = s := by
    intro cols
    induction cols with
    | nil => intro s _; rfl
    | cons c cs ih =>
      intro s hcs
      simp only [List.foldl_cons]
      have hc : fillCol s c = s := by
        unfold fillCol
        rw [if_pos (hcs c (by simp))]
      rw [hc]
      exact ih s (fun col hcol => hcs col (by simp [hcol]))
  exact hgen required_columns s h

theorem foldl_dset_fixed :
    ∀ (l acc : List (String × String)), (dkeys acc ++ dkeys l).Nodup →
      (∀ kv ∈ l, column_map kv.1 = kv.1) →
      l.foldl (fun a kv => dset a (column_map kv.1) kv.2) acc = acc ++ l := by
  intro l
  induction l with
  | nil => intro acc _ _; simp
  | cons hd tl ih =>
    intro acc hnd hfix
    obtain ⟨k, v⟩ := hd
    simp only [List.foldl_cons]
    have hk : column_map (k, v).1 = (k, v).1 := hfix (k, v) (by simp)
    rw [hk]
    have hknotin : k ∉ dkeys acc := by
      intro hm
      have hdisj := (List.nodup_append.mp hnd).2.2
      exact hdisj hm (by simp [dkeys])
    rw [dset_of_not_mem hknotin]
    have hnd2 : (dkeys (acc ++ [(k, v)]) ++ dkeys tl).Nodup := by
      have : dkeys (acc ++ [(k, v)]) ++ dkeys tl = dkeys acc ++ dkeys ((k, v) :: tl) := by
        simp [dkeys]
      rw [this]
      exact hnd
    rw [ih (acc ++ [(k, v)]) hnd2 (fun kv hkv => hfix kv (by simp [hkv]))]
    simp

theorem renameRow_id {s : List (String × String)} (h : RowOK s) : renameRow s = s := by
  have hfix : ∀ kv ∈ s, column_map kv.1 = kv.1 := fun kv hkv =>
    h.2 kv.1 (List.mem_map_of_mem _ hkv)
  have hres := foldl_dset_fixed s [] (by simpa [dkeys] using h.1) hfix
  simpa [renameRow] using hres

theorem stepDesc_id {s : List (String × String)} {C D : String}
    (hC : dget? s "CMD" = some C) (hD : dget? s "Description" = some D)
    (hfix : descFix C D = D) : stepDesc s = s := by
  unfold stepDesc
  rw [hC]
  show stepDescVal s C = s
  unfold stepDescVal
  rw [hD]
  show dset s "Description" (descFix C D) = s
  rw [hfix]
  exact dset_same hD

theorem stepTol_id {s : List (String × String)} {T : String}
    (hT : dget? s "Tolerance" = some T) (hfix : tolFix T = T) : stepTol s = s := by
  unfold stepTol
  rw [hT]
  show stepTolVal s T = s
  unfold stepTolVal
  split_ifs with hcond
  · rcases heq : tolerance_groups T.data with _ | ⟨n, mn, mx⟩
    · rfl
    · show dset s "Tolerance"
        (String.mk n ++ "(" ++ String.mk mn ++ "," ++ String.mk mx ++ ")") = s
      have hval : tolFix T =
          String.mk n ++ "(" ++ String.mk mn ++ "," ++ String.mk mx ++ ")" := by
        unfold tolFix
        rw [if_pos hcond, heq]
      rw [← hval, hfix]
      exact dset_same hT
  · rfl

theorem stepCond_id {s : List (String × String)} {C : String}
    (hC : dget? s "Condition" = some C) (hfix : condFix C = C) : stepCond s = s := by
  unfold stepCond
  rw [hC]
  show stepCondVal s C = s
  unfold stepCondVal
  split_ifs with hcond
  · rcases heq : leadNum C.data with _ | m
    · rfl
    · show (if String.mk m ≠ C then dset s "Condition" (String.mk m) else s) = s
      split_ifs with hm
      · have hval : condFix C = String.mk m := by
          unfold condFix
          rw [if_pos hcond, heq]
          show (if String.mk m ≠ C then String.mk m else C) = String.mk m
          rw [if_pos hm]
        rw [← hval, hfix]
        exact dset_same hC
      · rfl
  · rfl

theorem dget?_mem_of_isSome {s : List (String × String)} {k : String}
    (h : (dget? s k).isSome) : k ∈ dkeys s := by
  by_contra hm
  rw [dget?_eq_none_iff.mpr hm] at h
  simp at h

theorem stdRow_idem (r : List (String × String)) : stdRow (stdRow r) = stdRow r := by
  have hok : RowOK (stdRow r) := RowOK_stdRow r
  have hcmdfix1 : stepCmdFix (renameRow r) = renameRow r :=
    stepCmdFix_id (not_cmd_mem_of_RowOK (RowOK_renameRow r))
  have hstd : stdRow r = stepFill (stepCond (stepTol (stepDesc (renameRow r)))) := by
    unfold stdRow
    rw [hcmdfix1]
  have hCMD5 : dget? (stepCond (stepTol (stepDesc (renameRow r)))) "CMD" =
      dget? (renameRow r) "CMD" := by
    rw [dget?_stepCond_ne _ (by decide), dget?_stepTol_ne _ (by decide),
      dget?_stepDesc_ne _ (by decide)]
  have hD5 : dget? (stepCond (stepTol (stepDesc (renameRow r)))) "Description" =
      dget? (stepDesc (renameRow r)) "Description" := by
    rw [dget?_stepCond_ne _ (by decide), dget?_stepTol_ne _ (by decide)]
  have hT5 : dget? (stepCond (stepTol (stepDesc (renameRow r)))) "Tolerance" =
      dget? (stepTol (stepDesc (renameRow r))) "Tolerance" :=
    dget?_stepCond_ne _ (by decide)
  obtain ⟨C, D, hC, hD, hfixD⟩ : ∃ C D, dget? (stdRow r) "CMD" = some C ∧
      dget? (stdRow r) "Description" = some D ∧ descFix C D = D := by
    cases hcmd : dget? (renameRow r) "CMD" with
    | none =>
      have hCv : dget? (stdRow r) "CMD" = some "" := by
        rw [hstd, dget?_stepFill, hCMD5, hcmd, if_pos ⟨by decide, rfl⟩]
      have hdesc3 : dget? (stepDesc (renameRow r)) "Description" =
          dget? (renameRow r) "Description" := by
        unfold stepDesc
        rw [hcmd]
      cases hdesc : dget? (renameRow r) "Description" with
      | none =>
        refine ⟨"", "", hCv, ?_, descFix_empty_cmd ""⟩
        rw [hstd, dget?_stepFill, hD5, hdesc3, hdesc, if_pos ⟨by decide, rfl⟩]
      | some d =>
        refine ⟨"", d, hCv, ?_, descFix_empty_cmd d⟩
        rw [hstd, dget?_stepFill, hD5, hdesc3, hdesc, if_neg (by simp)]
    | some cmd =>
      have hCv : dget? (stdRow r) "CMD" = some cmd := by
        rw [hstd, dget?_stepFill, hCMD5, hcmd, if_neg (by simp)]
      have hdesc3 : dget? (stepDesc (renameRow r)) "Description" =
          some (descFix cmd ((dget? (renameRow r) "Description").getD "")) := by
        unfold stepDesc
        rw [hcmd]
        exact dget?_stepDescVal_self _ _
      refine ⟨cmd, descFix cmd ((dget? (renameRow r) "Description").getD ""), hCv, ?_,
        descFix_idem cmd _⟩
      rw [hstd, dget?_stepFill, hD5, hdesc3, if_neg (by simp)]
  obtain ⟨T, hT, hfixT⟩ : ∃ T, dget? (stdRow r) "Tolerance" = some T ∧ tolFix T = T := by
    cases ht3 : dget? (stepDesc (renameRow r)) "Tolerance" with
    | none =>
      have ht4 : dget? (stepTol (stepDesc (renameRow r))) "Tolerance" = none := by
        unfold stepTol
        rw [ht3]
        exact ht3
      refine ⟨"", ?_, tolFix_empty⟩
      rw [hstd, dget?_stepFill, hT5, ht4, if_pos ⟨by decide, rfl⟩]
    | some t =>
      have ht4 : dget? (stepTol (stepDesc (renameRow r))) "Tolerance" = some (tolFix t) := by
        unfold stepTol
        rw [ht3]
        exact dget?_stepTolVal_self _ ht3
      refine ⟨tolFix t, ?_, tolFix_idem t⟩
      rw [hstd, dget?_stepFill, hT5, ht4, if_neg (by simp)]
  obtain ⟨Cd, hCd, hfixCd⟩ : ∃ Cd, dget? (stdRow r) "Condition" = some Cd ∧
      condFix Cd = Cd := by
    cases hc4 : dget? (stepTol (stepDesc (renameRow r))) "Condition" with
    | none =>
      have hc5 : dget? (stepCond (stepTol (stepDesc (renameRow r)))) "Condition" = none := by
        unfold stepCond
        rw [hc4]
        exact hc4
      refine ⟨"", ?_, condFix_empty⟩
      rw [hstd, dget?_stepFill, hc5, if_pos ⟨by decide, rfl⟩]
    | some c =>
      have hc5 : dget? (stepCond (stepTol (stepDesc (renameRow r)))) "Condition" =
          some (condFix c) := by
        unfold stepCond
        rw [hc4]
        exact dget?_stepCondVal_self _ hc4
      refine ⟨condFix c, ?_, condFix_idem c⟩
      rw [hstd, dget?_stepFill, hc5, if_neg (by simp)]
  have hpresent : ∀ col ∈ required_columns, col ∈ dkeys (stdRow r) := by
    intro col hcol
    apply dget?_mem_of_isSome
    rw [hstd, dget?_stepFill]
    by_cases h5 : dget? (stepCond (stepTol (stepDesc (renameRow r)))) col = none
    · rw [if_pos ⟨hcol, h5⟩]
      rfl
    · rw [if_neg (fun hc => h5 hc.2)]
      cases hv : dget? (stepCond (stepTol (stepDesc (renameRow r)))) col with
      | none => exact absurd hv h5
      | some v => rfl
  set x := stdRow r with hx
  show stepFill (stepCond (stepTol (stepDesc (stepCmdFix (renameRow x))))) = x
  rw [renameRow_id hok, stepCmdFix_id (not_cmd_mem_of_RowOK hok),
    stepDesc_id hC hD hfixD, stepTol_id hT hfixT, stepCond_id hCd hfixCd]
  exact stepFill_id hpresent

theorem foldl_dset_dget_none :
    ∀ (l : List (String × String)) (acc : List (String × String)) {col : String},
      (∀ kv ∈ l, column_map kv.1 ≠ col) →
      dget? (l.foldl (fun a kv => dset a (column_map kv.1) kv.2) acc) col =
        dget? acc col := by
  intro l
  induction l with
  | nil => intro acc col _; rfl
  | cons hd tl ih =>
    intro acc col h
    simp only [List.foldl_cons]
    rw [ih _ (fun kv hkv => h kv (by simp [hkv]))]
    exact dget?_dset_ne _ _ _ (Ne.symm (h hd (by simp)))

theorem renameRow_dget_none {r : List (String × String)} {col : String}
    (h : ∀ kv ∈ r, column_map kv.1 ≠ col) : dget? (renameRow r) col = none := by
  unfold renameRow
  rw [foldl_dset_dget_none r [] h]
  rfl

theorem stdRow_present (r : List (String × String)) :
    ∀ col ∈ required_columns, (dget? (stdRow r) col).isSome := by
  intro col hcol
  unfold stdRow
  rw [stepCmdFix_id (not_cmd_mem_of_RowOK (RowOK_renameRow r)), dget?_stepFill]
  by_cases h5 : dget? (stepCond (stepTol (stepDesc (renameRow r)))) col = none
  · rw [if_pos ⟨hcol, h5⟩]
    rfl
  · rw [if_neg (fun hc => h5 hc.2)]
    cases hv : dget? (stepCond (stepTol (stepDesc (renameRow r)))) col with
    | none => exact absurd hv h5
    | some v => rfl

theorem stdRow_fill_empty {r : List (String × String)} {col : String}
    (hcol : col ∈ required_columns)
    (h1 : ∀ kv ∈ r, column_map kv.1 ≠ col)
    (h2 : col = "Description" → ∀ kv ∈ r, column_map kv.1 ≠ "CMD") :
    dget? (stdRow r) col = some "" := by
  have hren : dget? (renameRow r) col = none := renameRow_dget_none h1
  have h3 : dget? (stepDesc (renameRow r)) col = none := by
    by_cases hd : col = "Description"
    · subst hd
      have hcmdnone : dget? (renameRow r) "CMD" = none := renameRow_dget_none (h2 rfl)
      unfold stepDesc
      rw [hcmdnone]
      exact hren
    · rw [dget?_stepDesc_ne _ hd]
      exact hren
  have h4 : dget? (stepTol (stepDesc (renameRow r))) col = none := by
    by_cases ht : col = "Tolerance"
    · subst ht
      unfold stepTol
      rw [h3]
      exact h3
    · rw [dget?_stepTol_ne _ ht]
      exact h3
  have h5 : dget? (stepCond (stepTol (stepDesc (renameRow r)))) col = none := by
    by_cases hc : col = "Condition"
    · subst hc
      unfold stepCond
      rw [h4]
      exact h4
    · rw [dget?_stepCond_ne _ hc]
      exact h4
  unfold stdRow
  rw [stepCmdFix_id (not_cmd_mem_of_RowOK (RowOK_renameRow r)), dget?_stepFill,
    if_pos ⟨hcol, h5⟩]

theorem stdRow_desc_of_cmd {r : List (String × String)} {cmd : String}
    (hcmd : dget? (renameRow r) "CMD" = some cmd) :
    dget? (stdRow r) "Description" =
      some (descFix cmd ((dget? (renameRow r) "Description").getD "")) := by
  have hdesc3 : dget? (stepDesc (renameRow r)) "Description" =
      some (descFix cmd ((dget? (renameRow r) "Description").getD "")) := by
    unfold stepDesc
    rw [hcmd]
    exact dget?_stepDescVal_self _ _
  unfold stdRow
  rw [stepCmdFix_id (not_cmd_mem_of_RowOK (RowOK_renameRow r)), dget?_stepFill,
    dget?_stepCond_ne _ (by decide), dget?_stepTol_ne _ (by decide), hdesc3,
    if_neg (by simp)]

theorem descFix_of_map {cmd d desc : String} (h : description_map cmd = some d) :
    descFix cmd desc =
      if cmd = "Mv(P)" ∧ desc ≠ "" then
        (if subCS "L1".data desc.data then "L1"
         else if subCS "L2".data desc.data then "L2" else d)
      else d := by
  unfold descFix
  rw [h]
  rfl

/-! ### `utils/text_parser.py` — pattern matchers

Each regular expression used by `is_sequence_request` and
`extract_parameters` is hand-compiled into a scanner.  `tryAlts` plays the
role of a group of literal alternatives (an empty alternative encodes a `?`
group), with full backtracking into the continuation, exactly as the
`re` engine tries alternatives left to right.  Literal matching is
case-insensitive, as every one of these patterns carries `re.IGNORECASE`. -/

/-- Try literal alternatives in order, backtracking into the continuation. -/
def tryAlts {α : Type} (alts : List String) (k : List Char → Option α)
    (s : List Char) : Option α :=
  match alts with
  | [] => none
  | a :: rest =>
    match dropLitCI a.data s with
    | some s2 =>
      match k s2 with
      | some r => some r
      | none => tryAlts rest k s
    | none => tryAlts rest k s

/-- `\s*` (greedy; every follower in these patterns starts with a
non-whitespace character, so greediness is exact). -/
def pws0 {α : Type} (k : List Char → Option α) (s : List Char) : Option α :=
  k (s.dropWhile pyIsSpace)

/-- `\s+`. -/
def pws1 {α : Type} (k : List Char → Option α) : List Char → Option α
  | [] => none
  | c :: cs => if pyIsSpace c then k ((c :: cs).dropWhile pyIsSpace) else none

/-- `\s\s+` — at least two whitespace characters. -/
def pws2 {α : Type} (k : List Char → Option α) : List Char → Option α
  | c1 :: c2 :: cs =>
    if pyIsSpace c1 ∧ pyIsSpace c2 then k ((c2 :: cs).dropWhile pyIsSpace) else none
  | _ => none

/-- A case-insensitive literal. -/
def plit {α : Type} (lit : String) (k : List Char → Option α) (s : List Char) :
    Option α :=
  match dropLitCI lit.data s with
  | some s2 => k s2
  | none => none

/-- `\s+(?:alt1|alt2)?\s+`: either whitespace, an alternative and whitespace
again, or (skipping the optional group) two runs of whitespace merged into at
least two whitespace characters. -/
def wsAltWs {α : Type} (alts : List String) (k : List Char → Option α)
    (s : List Char) : Option α :=
  match pws1 (tryAlts alts (pws1 k)) s with
  | some r => some r
  | none => pws2 k s

/-- Successful end of a pattern. -/
def pdone : List Char → Option Unit := fun _ => some ()

/-- A trailing `\b`: the next character, if any, is not a word character. -/
def pwordEnd : List Char → Option Unit
  | [] => some ()
  | c :: _ => if pyIsWord c then none else some ()

/-- Scanning worker for `searchWB`, carrying the previous character for the
word-boundary test. -/
def searchWBGo {α : Type} (m : List Char → Option α) : Option Char → List Char → Bool
  | _, [] => false
  | prev, c :: cs =>
    ((match prev with
      | none => true
      | some p => ! pyIsWord p) && (m (c :: cs)).isSome) || searchWBGo m (some c) cs

/-- `re.search` for a pattern anchored by a leading `\b` (all these patterns
start with a word character, so the boundary means: start of string or a
preceding non-word character). -/
def searchWB {α : Type} (m : List Char → Option α) (s : List Char) : Bool :=
  searchWBGo m none s

/-- Plain `re.search`: try the pattern at every start position, returning
the first match's captures. -/
def searchCap {α : Type} (m : List Char → Option α) : List Char → Option α
  | [] => m []
  | c :: cs =>
    match m (c :: cs) with
    | some g => some g
    | none => searchCap m cs

/-- Greedy `(\d+\.?\d*)` capture: digits, an optional dot, more digits. -/
def numGroup (s : List Char) : Option (List Char × List Char) :=
  let ds := s.takeWhile Char.isDigit
  if ds.isEmpty then none
  else
    match s.drop ds.length with
    | '.' :: r2 =>
      let ds2 := r2.takeWhile Char.isDigit
      some (ds ++ '.' :: ds2, r2.drop ds2.length)
    | r1 => some (ds, r1)

/-- `[A-Za-z0-9-_]`. -/
def isAlnumDash (c : Char) : Bool := c.isAlpha ∨ c.isDigit ∨ c = '-' ∨ c = '_'

/-- `[A-Za-z0-9\s]`. -/
def isAlnumSpace (c : Char) : Bool := c.isAlpha ∨ c.isDigit ∨ pyIsSpace c

/-- Greedy one-or-more capture over a character class. -/
def capClass (p : Char → Bool) (s : List Char) : Option String :=
  let cap := s.takeWhile p
  if cap.isEmpty then none else some (String.mk cap)

/-- The eleven `PARAMETER_PATTERNS` of `utils/constants.py`, each compiled to
a start-position matcher returning `group(1)`.  The trailing `\s*(?:mm)?` of
some patterns is omitted: an optional group at the end of a pattern can
neither fail nor move the capture. -/
def PARAMETER_PATTERNS : List (String × (List Char → Option String)) :=
  [("Free Length",
    plit "free" (pws0 (plit "length" (pws0 (tryAlts ["=", ":", "is", "of", ""]
      (pws0 (fun s => (numGroup s).map (fun p => String.mk p.1)))))))),
   ("Part Number",
    plit "part" (pws0 (tryAlts ["number", "#", "no.", "no", ""]
      (pws0 (tryAlts ["=", ":", "is", ""] (pws0 (capClass isAlnumDash))))))),
   ("Model Number",
    plit "model" (pws0 (tryAlts ["number", "#", "no.", "no", ""]
      (pws0 (tryAlts ["=", ":", "is", ""] (pws0 (capClass isAlnumDash))))))),
   ("Wire Diameter",
    plit "wire" (pws0 (tryAlts ["diameter", "thickness", ""]
      (pws0 (tryAlts ["=", ":", "is", ""]
        (pws0 (fun s => (numGroup s).map (fun p => String.mk p.1)))))))),
   ("Outer Diameter",
    tryAlts ["outer", "outside"] (pws0 (plit "diameter"
      (pws0 (tryAlts ["=", ":", "is", ""]
        (pws0 (fun s => (numGroup s).map (fun p => String.mk p.1)))))))),
   ("Inner Diameter",
    tryAlts ["inner", "inside"] (pws0 (plit "diameter"
      (pws0 (tryAlts ["=", ":", "is", ""]
        (pws0 (fun s => (numGroup s).map (fun p => String.mk p.1)))))))),
   ("Spring Rate",
    tryAlts ["spring", "target"] (pws0 (plit "rate"
      (pws0 (tryAlts ["=", ":", "is", ""]
        (pws0 (fun s => (numGroup s).map (fun p => String.mk p.1)))))))),
   ("Test Load",
    tryAlts ["test", "target"] (pws0 (plit "load"
      (pws0 (tryAlts ["=", ":", "is", ""]
        (pws0 (fun s => (numGroup s).map (fun p => String.mk p.1)))))))),
   ("Deflection",
    plit "deflection" (pws0 (tryAlts ["=", ":", "is", ""]
      (pws0 (fun s => (numGroup s).map (fun p => String.mk p.1)))))),
   ("Working Length",
    plit "working" (pws0 (plit "length" (pws0 (tryAlts ["=", ":", "is", ""]
      (pws0 (fun s => (numGroup s).map (fun p => String.mk p.1)))))))),
   ("Customer ID",
    plit "customer" (pws0 (tryAlts ["id", "number", ""]
      (pws0 (tryAlts ["=", ":", "is", ""] (pws0 (capClass isAlnumSpace)))))))]

/-- The eight `sequence_keywords` of `is_sequence_request`, as searches. -/
def sequence_keywords : List (List Char → Bool) :=
  [searchWB (tryAlts ["generat", "creat", "mak"] (tryAlts ["e", "ing", ""]
     (wsAltWs ["a", "the"] (tryAlts ["test", ""] (pws0 (plit "sequence" pdone)))))),
   searchWB (tryAlts ["test", "testing"] (pws1 (plit "sequence" pdone))),
   searchWB (plit "sequence" (pws1 (plit "for" pdone))),
   searchWB (plit "spring" (pws1 (plit "test" pdone))),
   searchWB (plit "compression" (pws1 (plit "test" pdone))),
   searchWB (plit "tension" (pws1 (plit "test" pdone))),
   searchWB (tryAlts ["displacement", "deflection", "height"]
     (pws1 (plit "test" pdone))),
   searchWB (plit "measur" (tryAlts ["e", "ing"]
     (wsAltWs ["a", "the"] (plit "spring" pdone))))]

/-- `\btest` of the test-type check. -/
def testWordHit : List Char → Bool := searchWB (plit "test" pdone)

/-- The `test_type_keywords` lists (compression first, then tension), as
searches. -/
def test_type_keywords : List (List Char → Bool) :=
  [searchWB (plit "compress" (tryAlts ["ion", ""] pdone)),
   searchWB (plit "push" (tryAlts ["ing", ""] pdone)),
   searchWB (plit "deflect" (tryAlts ["ion", ""] pdone)),
   searchWB (plit "deformation" pdone),
   searchWB (plit "tens" (tryAlts ["ion", ""] pdone)),
   searchWB (plit "extend" (tryAlts ["ing", ""] pdone)),
   searchWB (plit "pull" (tryAlts ["ing", ""] pdone)),
   searchWB (plit "stretch" (tryAlts ["ing", ""] pdone)),
   searchWB (plit "extension" pdone)]

/-- The five `conversation_patterns`, as searches. -/
def conversation_patterns : List (List Char → Bool) :=
  [fun t => (tryAlts ["hi", "hello", "hey", "greetings"] pdone t).isSome,
   fun t => (tryAlts ["how are you", "what can you do", "who are you"] pdone t).isSome,
   searchWB (tryAlts ["explain", "tell me about", "what is", "how does"] pdone),
   searchWB (tryAlts ["thanks", "thank you", "good job"] pdone),
   fun t => (plit "?" pdone t).isSome]

/-- The number of parameter patterns matching anywhere in the text. -/
def parameter_count (text : String) : Nat :=
  (PARAMETER_PATTERNS.filter (fun kv => (searchCap kv.2 text.data).isSome)).length

/-- `is_sequence_request` from `utils/text_parser.py`. -/
def is_sequence_request (text : String) : Bool :=
  let t := text.data
  if sequence_keywords.any (fun m => m t) then true
  else if testWordHit t && test_type_keywords.any (fun m => m t) then true
  else if conversation_patterns.any (fun m => m t) then false
  else if 2 ≤ parameter_count text then true
  else false

example : is_sequence_request "hello, how are you?" = false := by decide

example : is_sequence_request "hello free length 50 wire diameter 2" = false := by decide

example :
    is_sequence_request "Generate a test sequence for a compression spring" = true := by
  decide

example : is_sequence_request "generate sequence" = false := by decide

example : is_sequence_request "spring rate 10 test load 20" = true := by decide

example : is_sequence_request "free length 50 wire diameter 2" = true := by decide

/-! ### `utils/text_parser.py` — `extract_parameters` and
`format_parameter_text`

Python floats are embedded as `ℚ`; `datetime.now()` is an environment read
and is passed as an explicit `now` argument. -/

/-- A value in the extracted parameter map: a coerced float or a string. -/
inductive PValue
  | pfloat (q : ℚ)
  | pstr (s : String)
deriving DecidableEq

/-- Numeric value of a digit string. -/
def digitsToNat (ds : List Char) : Nat :=
  ds.foldl (fun n c => 10 * n + (c.toNat - 48)) 0

/-- Python `float(s)` on the digit/dot strings the extractor can capture
(signs and exponents never occur in those captures).  The value
`int.frac` is the exact rational `(int·10^k + frac) / 10^k`. -/
def parseFloatPy (s : String) : Option ℚ :=
  let l := s.data
  let ip := l.takeWhile Char.isDigit
  match l.drop ip.length with
  | [] => if ip.isEmpty then none else some (mkRat (digitsToNat ip) 1)
  | '.' :: r2 =>
    let fp := r2.takeWhile Char.isDigit
    if ¬ r2.drop fp.length = [] then none
    else if ip.isEmpty ∧ fp.isEmpty then none
    else some (mkRat (digitsToNat ip * 10 ^ fp.length + digitsToNat fp) (10 ^ fp.length))
  | _ => none

/-- `\b(?:compress|compression|comp|compressive|pushing|push|pressing|press)\b`. -/
def compressionAt : List Char → Option Unit :=
  tryAlts ["compress", "compression", "comp", "compressive", "pushing", "push",
    "pressing", "press"] pwordEnd

/-- `\b(?:tens|tension|extension|extend|tensile|extending|pulling|pull|stretching|stretch)\b`. -/
def tensionAt : List Char → Option Unit :=
  tryAlts ["tens", "tension", "extension", "extend", "tensile", "extending",
    "pulling", "pull", "stretching", "stretch"] pwordEnd

/-- The keys whose captures stay strings rather than being coerced to float. -/
def textValueKeys : List String := ["Part Number", "Model Number", "Customer ID"]

/-- The body of the pattern loop of `extract_parameters` for one pattern:
append the (stripped, float-coerced where applicable) capture when the
pattern matches. -/
def paramStep (t : List Char) (acc : List (String × PValue))
    (kv : String × (List Char → Option String)) : List (String × PValue) :=
  match searchCap kv.2 t with
  | none => acc
  | some raw =>
    let v := String.mk (pyStrip raw.data)
    if kv.1 ∈ textValueKeys then acc ++ [(kv.1, PValue.pstr v)]
    else
      match parseFloatPy v with
      | some q => acc ++ [(kv.1, PValue.pfloat q)]
      | none => acc ++ [(kv.1, PValue.pstr v)]

/-- `extract_parameters` from `utils/text_parser.py`.  The wall-clock
timestamp is an input (`now`), making the environment dependence explicit. -/
def extract_parameters (now text : String) : List (String × PValue) :=
  let t := text.data
  let ps : List (String × PValue) :=
    if searchWB compressionAt t then [("Test Type", PValue.pstr "Compression")]
    else if searchWB tensionAt t then [("Test Type", PValue.pstr "Tension")]
    else []
  PARAMETER_PATTERNS.foldl (paramStep t) ps ++
    [("Timestamp", PValue.pstr now), ("prompt", PValue.pstr text)]

/-- Left-pad a digit string with zeros to the given width. -/
def padLeftZeros (s : List Char) (n : Nat) : List Char :=
  List.replicate (n - s.length) '0' ++ s

/-- `|q| · 10^dp` rounded half to even (the rounding of Python's fixed-point
formatting), computed on the reduced numerator and denominator. -/
def scaledHalfEven (dp : Nat) (q : ℚ) : Nat :=
  let num : Nat := q.num.natAbs * 10 ^ dp
  let den : Nat := q.den
  let f : Nat := num / den
  let r : Nat := num - f * den
  if 2 * r < den then f
  else if den < 2 * r then f + 1
  else if f % 2 = 0 then f else f + 1

/-- Python `f"{q:.dp f}"` on the `ℚ` embedding of the float. -/
def fmtFixed (dp : Nat) (q : ℚ) : String :=
  let neg := q.num < 0
  let ds := padLeftZeros (Nat.toDigits 10 (scaledHalfEven dp q)) (dp + 1)
  let core :=
    if dp = 0 then String.mk ds
    else String.mk (ds.take (ds.length - dp)) ++ "." ++ String.mk (ds.drop (ds.length - dp))
  if neg then "-" ++ core else core

/-- The value part of one formatted parameter line: precision by magnitude,
then a unit suffix chosen by substring match on the key name. -/
def renderValue (key : String) (v : PValue) : String :=
  match v with
  | PValue.pstr s => s
  | PValue.pfloat q =>
    let fv :=
      if q < mkRat 1 10 then fmtFixed 3 q
      else if q < 1 then fmtFixed 2 q
      else fmtFixed 1 q
    if subCS "Length".data key.data ∨ subCS "Diameter".data key.data then fv ++ " mm"
    else if subCS "Force".data key.data ∨ subCS "Load".data key.data then fv ++ " N"
    else if subCS "Rate".data key.data then fv ++ " N/mm"
    else fv

/-- One formatted `Key: value` line. -/
def rline (kv : String × PValue) : String :=
  kv.1 ++ ": " ++ renderValue kv.1 kv.2

/-- The `lines` list built by `format_parameter_text`: one `Key: value` line
per entry, skipping the timestamp. -/
def format_parameter_lines (parameters : List (String × PValue)) : List String :=
  parameters.foldl (fun lines kv =>
    if kv.1 = "Timestamp" then lines else lines ++ [rline kv]) []

/-- `format_parameter_text` from `utils/text_parser.py`. -/
def format_parameter_text (parameters : List (String × PValue)) : String :=
  String.intercalate "\n" (format_parameter_lines parameters)

example : extract_parameters "t0" "free length 50 wire diameter 2" =
    [("Free Length", PValue.pfloat 50), ("Wire Diameter", PValue.pfloat 2),
     ("Timestamp", PValue.pstr "t0"),
     ("prompt", PValue.pstr "free length 50 wire diameter 2")] := by decide

example : format_parameter_text
    [("Free Length", PValue.pfloat 50), ("Timestamp", PValue.pstr "t0"),
     ("prompt", PValue.pstr "x")] = "Free Length: 50.0 mm\nprompt: x" := by decide

/-! ### `utils/text_parser.py` — `extract_command_sequence`

`json.loads` is embedded as a strict JSON parser over the character list
(fuelled by the input length).  `standardize_sequence_data` iterates the
parsed value as a list of dicts, which raises in Python whenever the value
is not an array of objects with scalar members; the embedding returns
`none` for those executions, and `some table` for the returning ones. -/

/-- Opening curly brace character. -/
def braceL : Char := Char.ofNat 123

/-- Closing curly brace character. -/
def braceR : Char := Char.ofNat 125

/-- A JSON value; number lexemes are kept verbatim. -/
inductive JVal where
  | jnull
  | jbool (b : Bool)
  | jnum (lexeme : String)
  | jstr (s : String)
  | jarr (elems : List JVal)
  | jobj (fields : List (String × JVal))

/-- JSON whitespace. -/
def jsonWs (c : Char) : Bool := c = ' ' ∨ c = '\t' ∨ c = '\n' ∨ c = '\r'

/-- Skip JSON whitespace. -/
def skipJWs (s : List Char) : List Char := s.dropWhile jsonWs

/-- A hexadecimal digit's value. -/
def hexVal (c : Char) : Option Nat :=
  if c.isDigit then some (c.toNat - 48)
  else if 'a' ≤ c ∧ c ≤ 'f' then some (c.toNat - 87)
  else if 'A' ≤ c ∧ c ≤ 'F' then some (c.toNat - 55)
  else none

/-- Body of a JSON string after the opening quote: decoded content and the
rest after the closing quote. -/
def parseStringBody : Nat → List Char → Option (List Char × List Char)
  | 0, _ => none
  | _ + 1, [] => none
  | fuel + 1, c :: cs =>
    if c = '"' then some ([], cs)
    else if c = '\\' then
      match cs with
      | [] => none
      | e :: cs2 =>
        let dec : Option (Char × List Char) :=
          if e = '"' then some ('"', cs2)
          else if e = '\\' then some ('\\', cs2)
          else if e = '/' then some ('/', cs2)
          else if e = 'b' then some ('\x08', cs2)
          else if e = 'f' then some ('\x0c', cs2)
          else if e = 'n' then some ('\n', cs2)
          else if e = 'r' then some ('\r', cs2)
          else if e = 't' then some ('\t', cs2)
          else if e = 'u' then
            match cs2 with
            | h1 :: h2 :: h3 :: h4 :: cs3 =>
              match hexVal h1, hexVal h2, hexVal h3, hexVal h4 with
              | some a, some b, some c3, some d =>
                some (Char.ofNat (((a * 16 + b) * 16 + c3) * 16 + d), cs3)
              | _, _, _, _ => none
            | _ => none
          else none
        match dec with
        | none => none
        | some (ch, rest) =>
          match parseStringBody fuel rest with
          | none => none
          | some (content, rest2) => some (ch :: content, rest2)
    else
      match parseStringBody fuel cs with
      | none => none
      | some (content, rest2) => some (c :: content, rest2)

/-- A JSON number lexeme: `-?(0|[1-9][0-9]*)(\.[0-9]+)?([eE][+-]?[0-9]+)?`. -/
def parseNumberLex (s : List Char) : Option (List Char × List Char) :=
  let p : List Char × List Char :=
    match s with
    | '-' :: r => (['-'], r)
    | _ => ([], s)
  let ids := p.2.takeWhile Char.isDigit
  if ids.isEmpty then none
  else if 1 < ids.length ∧ ids.headD '0' = '0' then none
  else
    let s2 := p.2.drop ids.length
    let q : List Char × List Char :=
      match s2 with
      | '.' :: r =>
        let fs := r.takeWhile Char.isDigit
        if fs.isEmpty then ([], s2) else ('.' :: fs, r.drop fs.length)
      | _ => ([], s2)
    let r3 : List Char × List Char :=
      match q.2 with
      | 'e' :: r =>
        match r with
        | '+' :: r2 =>
          let es := r2.takeWhile Char.isDigit
          if es.isEmpty then ([], q.2) else ('e' :: '+' :: es, r2.drop es.length)
        | '-' :: r2 =>
          let es := r2.takeWhile Char.isDigit
          if es.isEmpty then ([], q.2) else ('e' :: '-' :: es, r2.drop es.length)
        | _ =>
          let es := r.takeWhile Char.isDigit
          if es.isEmpty then ([], q.2) else ('e' :: es, r.drop es.length)
      | 'E' :: r =>
        match r with
        | '+' :: r2 =>
          let es := r2.takeWhile Char.isDigit
          if es.isEmpty then ([], q.2) else ('E' :: '+' :: es, r2.drop es.length)
        | '-' :: r2 =>
          let es := r2.takeWhile Char.isDigit
          if es.isEmpty then ([], q.2) else ('E' :: '-' :: es, r2.drop es.length)
        | _ =>
          let es := r.takeWhile Char.isDigit
          if es.isEmpty then ([], q.2) else ('E' :: es, r.drop es.length)
      | _ => ([], q.2)
    some (p.1 ++ ids ++ q.1 ++ r3.1, r3.2)

mutual

/-- Parse one JSON value. -/
def parseVal : Nat → List Char → Option (JVal × List Char)
  | 0, _ => none
  | fuel + 1, s =>
    let s1 := skipJWs s
    match s1 with
    | [] => none
    | c :: cs =>
      if c = braceL then parseObjBody fuel cs
      else if c = '[' then parseArrBody fuel cs
      else if c = '"' then
        match parseStringBody (cs.length + 1) cs with
        | some (content, rest) => some (JVal.jstr (String.mk content), rest)
        | none => none
      else if c = 't' then
        match dropLitCS "true".data s1 with
        | some rest => some (JVal.jbool true, rest)
        | none => none
      else if c = 'f' then
        match dropLitCS "false".data s1 with
        | some rest => some (JVal.jbool false, rest)
        | none => none
      else if c = 'n' then
        match dropLitCS "null".data s1 with
        | some rest => some (JVal.jnull, rest)
        | none => none
      else if c = 'N' then
        match dropLitCS "NaN".data s1 with
        | some rest => some (JVal.jnum "NaN", rest)
        | none => none
      else if c = 'I' then
        match dropLitCS "Infinity".data s1 with
        | some rest => some (JVal.jnum "Infinity", rest)
        | none => none
      else
        match parseNumberLex s1 with
        | some (lex, rest) => some (JVal.jnum (String.mk lex), rest)
        | none =>
          match dropLitCS "-Infinity".data s1 with
          | some rest => some (JVal.jnum "-Infinity", rest)
          | none => none

/-- Array body after the opening bracket. -/
def parseArrBody : Nat → List Char → Option (JVal × List Char)
  | 0, _ => none
  | fuel + 1, s =>
    let s1 := skipJWs s
    match s1 with
    | c :: cs =>
      if c = ']' then some (JVal.jarr [], cs)
      else
        match parseVal fuel s1 with
        | some (v, rest) => parseArrTail fuel [v] rest
        | none => none
    | [] => none

/-- Array tail: a comma and a value, or the closing bracket. -/
def parseArrTail : Nat → List JVal → List Char → Option (JVal × List Char)
  | 0, _, _ => none
  | fuel + 1, acc, s =>
    let s1 := skipJWs s
    match s1 with
    | c :: cs =>
      if c = ']' then some (JVal.jarr acc.reverse, cs)
      else if c = ',' then
        match parseVal fuel cs with
        | some (v, rest) => parseArrTail fuel (v :: acc) rest
        | none => none
      else none
    | [] => none

/-- Object body after the opening brace. -/
def parseObjBody : Nat → List Char → Option (JVal × List Char)
  | 0, _ => none
  | fuel + 1, s =>
    let s1 := skipJWs s
    match s1 with
    | c :: cs =>
      if c = braceR then some (JVal.jobj [], cs)
      else
        match parseMember fuel s1 with
        | some (kv, rest) => parseObjTail fuel [kv] rest
        | none => none
    | [] => none

/-- Object tail: a comma and a member, or the closing brace. -/
def parseObjTail : Nat → List (String × JVal) → List Char →
    Option (JVal × List Char)
  | 0, _, _ => none
  | fuel + 1, acc, s =>
    let s1 := skipJWs s
    match s1 with
    | c :: cs =>
      if c = braceR then some (JVal.jobj acc.reverse, cs)
      else if c = ',' then
        match parseMember fuel (skipJWs cs) with
        | some (kv, rest) => parseObjTail fuel (kv :: acc) rest
        | none => none
      else none
    | [] => none

/-- One object member: a string key, a colon and a value. -/
def parseMember : Nat → List Char → Option ((String × JVal) × List Char)
  | 0, _ => none
  | fuel + 1, s =>
    match s with
    | '"' :: cs =>
      match parseStringBody (cs.length + 1) cs with
      | some (key, rest) =>
        match skipJWs rest with
        | ':' :: rest2 =>
          match parseVal fuel rest2 with
          | some (v, rest3) => some ((String.mk key, v), rest3)
          | none => none
        | _ => none
      | none => none
    | _ => none

end

/-- `json.loads` on the character list: a single value, nothing but
whitespace after it. -/
def jparse (s : List Char) : Option JVal :=
  match parseVal (s.length + 1) s with
  | some (v, rest) => if skipJWs rest = [] then some v else none
  | none => none

/-- Lazy completion of the fenced branch `(.*?)\n```\x60: the characters before
the first occurrence of a newline followed by three backticks. -/
def fenceClose : List Char → Option (List Char)
  | [] => none
  | c :: cs =>
    if startsWithCS "\n```".data (c :: cs) then some []
    else
      match fenceClose cs with
      | some tail => some (c :: tail)
      | none => none

/-- Greedy `\[.*\]` at a position starting with the bracket (with `DOTALL`):
through the last closing bracket of the remainder. -/
def bracketGroup (s : List Char) : Option (List Char) :=
  let rest := s.reverse.dropWhile (fun c => ¬ c = ']')
  match rest with
  | [] => none
  | _ => some rest.reverse

/-- `re.search(r'```json\n(.*?)\n```|(\[.*\])', text, re.DOTALL)`: scan left
to right, trying the fenced branch before the bracket branch at each
position. -/
def jsonMatchScan : List Char → Option (List Char)
  | [] => none
  | c :: cs =>
    if startsWithCS "```json\n".data (c :: cs) then
      match fenceClose ((c :: cs).drop 8) with
      | some g => some g
      | none =>
        if c = '[' then
          match bracketGroup (c :: cs) with
          | some g => some g
          | none => jsonMatchScan cs
        else jsonMatchScan cs
    else if c = '[' then
      match bracketGroup (c :: cs) with
      | some g => some g
      | none => jsonMatchScan cs
    else jsonMatchScan cs

/-- Split on newlines. -/
def splitNl : List Char → List (List Char)
  | [] => [[]]
  | c :: cs =>
    let r := splitNl cs
    if c = '\n' then [] :: r
    else (c :: r.headD []) :: r.tail

/-- One line under `re.sub(r'^```.*|```$', '', line)`: a line starting with
three backticks is emptied, otherwise a trailing three backticks is cut. -/
def cleanupLine (l : List Char) : List Char :=
  if startsWithCS "```".data l then []
  else if startsWithCS "```".data l.reverse then l.take (l.length - 3)
  else l

/-- The markdown cleanup and `strip` applied to the candidate payload. -/
def stripFence (s : List Char) : List Char :=
  pyStrip (List.intercalate ['\n'] ((splitNl s).map cleanupLine))

/-- The `json_content` value computed by `extract_command_sequence`, `none`
for the raising execution: the source computes
`json_match.group(1) or json_match.group(2)`, and when the fenced branch
matches with an EMPTY payload, `group(1)` is `""` (falsy) and `group(2)` is
`None` (the bracket branch did not participate), so `json_content` becomes
`None` and the following `re.sub` raises `TypeError`.  The bracket branch's
group always contains its brackets and is never empty, so an empty captured
group identifies that execution exactly. -/
def json_content_of (text : String) : Option (List Char) :=
  match jsonMatchScan text.data with
  | some [] => none
  | some g => some (stripFence g)
  | none => some (stripFence text.data)

/-- Group 1 of the retry `re.search(r'\[(.*)\]', json_content, re.DOTALL)`:
everything strictly between the first opening bracket and the last closing
bracket after it. -/
def bracketInner : List Char → Option (List Char)
  | [] => none
  | c :: cs =>
    if c = '[' then
      let rest := cs.reverse.dropWhile (fun x => ¬ x = ']')
      match rest with
      | [] => bracketInner cs
      | _ :: innerRev => some innerRev.reverse
    else bracketInner cs

/-- A scalar member value, as `standardize_sequence_data` would consume it
(strings stay themselves, numbers keep their lexeme; any other value shape
makes the Python loop raise and is out of the returning executions). -/
def scalarStr : JVal → Option String
  | JVal.jstr s => some s
  | JVal.jnum l => some l
  | _ => none

/-- One parsed object as a row dict. -/
def toRow (fields : List (String × JVal)) : Option (List (String × String)) :=
  fields.foldl (fun acc kv =>
    match acc with
    | none => none
    | some row =>
      match scalarStr kv.2 with
      | some v => some (dset row kv.1 v)
      | none => none) (some [])

/-- The parsed value as the list of row dicts iterated by
`standardize_sequence_data`; `none` marks the raising executions. -/
def toRows : JVal → Option (List (List (String × String)))
  | JVal.jarr elems =>
    elems.foldr (fun e acc =>
      match acc with
      | none => none
      | some rows =>
        match e with
        | JVal.jobj fields =>
          match toRow fields with
          | some row => some (row :: rows)
          | none => none
        | _ => none) (some [])
  | _ => none

/-- `extract_command_sequence` from `utils/text_parser.py`: `some table` for
the returning executions, `none` for the raising ones (the `TypeError` of an
empty fenced payload, and the uncaught exceptions `standardize_sequence_data`
raises on a parsed value that is not a list of scalar-valued dicts). -/
def extract_command_sequence (text : String) :
    Option (List (List (String × String))) :=
  match json_content_of text with
  | none => none
  | some jc =>
    match jparse jc with
    | some v =>
      match toRows v with
      | some rows => some (standardize_sequence_data rows)
      | none => none
    | none =>
      match bracketInner jc with
      | some inner =>
        match jparse ('[' :: inner ++ [']']) with
        | some v =>
          match toRows v with
          | some rows => some (standardize_sequence_data rows)
          | none => none
        | none => some []
      | none => some []

example : extract_command_sequence "[\x7d" = some [] := by decide

example : extract_command_sequence "[oops]" = some [] := by decide

example : extract_command_sequence "hello there" = some [] := by decide

example : extract_command_sequence "```json\n\n```" = none := by decide

example : extract_command_sequence "[NaN]" = none := by decide

example : jparse "[NaN]".data = some (JVal.jarr [JVal.jnum "NaN"]) := by rfl

example : extract_command_sequence "[\x7b\"Row\": \"R00\", \"Cmd\": \"ZF\"\x7d]" =
    some [[("Row", "R00"), ("CMD", "ZF"), ("Description", "Zero Force"),
           ("Condition", ""), ("Unit", ""), ("Tolerance", ""), ("Speed rpm", "")]] := by
  decide

/-! ### `ui/specifications_panel.py` — `parse_specifications_text`

The claims under study concern the set-point part of the parser (the
discovery loop and the position/load pattern loops); the preprocessing the
whole function applies to its input is embedded too, since every search runs
on the preprocessed text.  The basic-info field loop above it touches only
the `basic_info` half of the result and is independent of the set-point
loops. -/

/-- The keyword list of the newline-insertion preprocessing loop. -/
def spec_keywords : List String :=
  ["Part Name:", "Part Number:", "ID:", "Free Length:", "No of ", "Wire ",
   "Wired ", "OD:", "Set Po", "Safety"]

/-- One pass of `re.sub(f"\\s+({kw})", "\n\\1", text, re.IGNORECASE)`:
each whitespace run directly followed by the keyword becomes a newline plus
the keyword (fuelled; one character is consumed per step). -/
def subKeywordGo (kw : List Char) : Nat → List Char → List Char
  | 0, s => s
  | _ + 1, [] => []
  | fuel + 1, c :: cs =>
    if pyIsSpace c then
      let run := (c :: cs).takeWhile pyIsSpace
      let rest := (c :: cs).drop run.length
      match dropLitCI kw rest with
      | some after => '\n' :: (rest.take kw.length ++ subKeywordGo kw fuel after)
      | none => run ++ subKeywordGo kw fuel rest
    else c :: subKeywordGo kw fuel cs

/-- One keyword pass over a string. -/
def subKeyword (kw : String) (s : List Char) : List Char :=
  subKeywordGo kw.data (s.length + 1) s

/-- `re.sub(r'\s+', ' ', p)`: collapse whitespace runs to single spaces. -/
def collapseWsGo : Bool → List Char → List Char
  | _, [] => []
  | prevWs, c :: cs =>
    if pyIsSpace c then
      if prevWs then collapseWsGo true cs else ' ' :: collapseWsGo true cs
    else c :: collapseWsGo false cs

/-- Whitespace collapsing. -/
def collapseWs (s : List Char) : List Char := collapseWsGo false s

/-- The preprocessing of `parse_specifications_text`: keyword passes, then
whitespace collapsing, then `strip`. -/
def preprocess_specs (text : String) : List Char :=
  pyStrip (collapseWs (spec_keywords.foldl (fun acc kw => subKeyword kw acc) text.data))

/-- `(?:Po(?:i|n)(?:i|t)|Poni)` — the typo-tolerant label core.  Note that it
matches `Poii`, `Poit`, `Poni` and `Pont` but not the standard `Point`. -/
def labelCore {α : Type} (k : List Char → Option α) (s : List Char) : Option α :=
  match plit "po" (tryAlts ["i", "n"] (tryAlts ["i", "t"] k)) s with
  | some r => some r
  | none => plit "poni" k s

/-- `Set\s+(?:Po(?:i|n)(?:i|t)|Poni)-(\d+)` at a position: the captured index
and the rest after the match. -/
def setLabelAt (s : List Char) : Option (Nat × List Char) :=
  plit "set" (pws1 (labelCore (fun s3 =>
    match s3 with
    | '-' :: s4 =>
      let ds := s4.takeWhile Char.isDigit
      if ds.isEmpty then none else some (digitsToNat ds, s4.drop ds.length)
    | _ => none))) s

/-- `re.finditer` over the label pattern: non-overlapping matches, resuming
after each match end. -/
def findLabelsGo : Nat → List Char → List Nat
  | 0, _ => []
  | _ + 1, [] => []
  | fuel + 1, c :: cs =>
    match setLabelAt (c :: cs) with
    | some (idx, rest) => idx :: findLabelsGo fuel rest
    | none => findLabelsGo fuel cs

/-- Keep first occurrences only, in order of appearance. -/
def dedupKeep (l : List Nat) : List Nat :=
  l.foldl (fun acc i => if i ∈ acc then acc else acc ++ [i]) []

/-- The `set_point_indices` list of the source: distinct discovered indices
in order of first appearance. -/
def set_point_indices (t : List Char) : List Nat :=
  dedupKeep (findLabelsGo (t.length + 1) t)

/-- `[\d.]`. -/
def isDigitDot (c : Char) : Bool := c.isDigit ∨ c = '.'

/-- The label followed by `-` and the decimal digits of a known index. -/
def labelIdx {α : Type} (idx : Nat) (k : List Char → Option α) : List Char → Option α :=
  plit "set" (pws1 (labelCore (fun s3 =>
    match dropLitCS ('-' :: Nat.toDigits 10 idx) s3 with
    | some s4 => k s4
    | none => none)))

/-- `(?:\s+in\s+mm)?` with backtracking. -/
def optInMm {α : Type} (k : List Char → Option α) (s : List Char) : Option α :=
  match pws1 (plit "in" (pws1 (plit "mm" k))) s with
  | some r => some r
  | none => k s

/-- `:?` with backtracking. -/
def optColon {α : Type} (k : List Char → Option α) (s : List Char) : Option α :=
  match s with
  | ':' :: cs =>
    match k cs with
    | some r => some r
    | none => k s
  | _ => k s

/-- `[^L]+?([\d.]+)` (the class is case-insensitive): lazily extend over
non-`L` characters, capturing the first digit/dot run reached. -/
def lazyNonLNumGo : List Char → Option String
  | [] => none
  | c :: cs =>
    match capClass isDigitDot (c :: cs) with
    | some g => some g
    | none => if lowerChar c = 'l' then none else lazyNonLNumGo cs

/-- `[^L]+?([\d.]+)`: at least one non-`L` character before the capture. -/
def lazyNonLNum (s : List Char) : Option String :=
  match s with
  | [] => none
  | c :: cs => if lowerChar c = 'l' then none else lazyNonLNumGo cs

/-- `([\d.]+)(?:±([\d.]+)%)?`: the load capture and its optional tolerance. -/
def capLoadTol (s : List Char) : Option (String × Option String) :=
  let cap := s.takeWhile isDigitDot
  if cap.isEmpty then none
  else
    let rest := s.drop cap.length
    match rest with
    | c :: cs =>
      if c = '±' then
        let t := cs.takeWhile isDigitDot
        if t.isEmpty then some (String.mk cap, none)
        else
          match cs.drop t.length with
          | '%' :: _ => some (String.mk cap, some (String.mk t))
          | _ => some (String.mk cap, none)
      else some (String.mk cap, none)
    | [] => some (String.mk cap, none)

/-- `[^:]*?([\d.]+)(?:±([\d.]+)%)?`: lazily extend over non-colon characters
to the first digit/dot run. -/
def loadPat3Cap : List Char → Option (String × Option String)
  | [] => none
  | c :: cs =>
    match capLoadTol (c :: cs) with
    | some r => some r
    | none => if c = ':' then none else loadPat3Cap cs

/-- `[^:]*?Load[^:]*?([\d.]+)(?:±([\d.]+)%)?`: find `Load` without crossing a
colon (trying later occurrences if the continuation fails), then capture. -/
def loadPat3Go : List Char → Option (String × Option String)
  | [] => none
  | c :: cs =>
    match dropLitCI "load".data (c :: cs) with
    | some after =>
      match loadPat3Cap after with
      | some r => some r
      | none => if c = ':' then none else loadPat3Go cs
    | none => if c = ':' then none else loadPat3Go cs

/-- The three `position_patterns` for a set-point index. -/
def position_patterns (idx : Nat) : List (List Char → Option String) :=
  [labelIdx idx (optInMm (optColon (pws0 (capClass isDigitDot)))),
   labelIdx idx (pws1 (plit "in" (pws1 (plit "mm" (pws0 (capClass isDigitDot)))))),
   labelIdx idx lazyNonLNum]

/-- The three `load_patterns` for a set-point index. -/
def load_patterns (idx : Nat) : List (List Char → Option (String × Option String)) :=
  [labelIdx idx (pws1 (plit "load" (pws1 (plit "in" (pws1 (plit "n"
     (optColon (pws0 capLoadTol)))))))),
   labelIdx idx (pws1 (plit "load" (pws1 (plit "in" (pws1 (plit "n"
     (pws0 capLoadTol))))))),
   labelIdx idx loadPat3Go]

/-- The position loop: first pattern whose match's group coerces to float. -/
def tryPositions : List (List Char → Option String) → List Char → Option ℚ
  | [], _ => none
  | p :: ps, t =>
    match searchCap p t with
    | some g =>
      match parseFloatPy (String.mk (pyStrip g.data)) with
      | some q => some q
      | none => tryPositions ps t
    | none => tryPositions ps t

/-- The position resolved for an index. -/
def resolvePosition (idx : Nat) (t : List Char) : Option ℚ :=
  tryPositions (position_patterns idx) t

/-- The load loop, with the source's mutation-on-partial-failure semantics:
a pattern that sets the load but fails the tolerance coercion leaves the
load set and continues with the next pattern. -/
def tryLoads : List (List Char → Option (String × Option String)) → List Char →
    Option ℚ × Option ℚ → Option ℚ × Option ℚ
  | [], _, st => st
  | p :: ps, t, st =>
    match searchCap p t with
    | none => tryLoads ps t st
    | some (g1, g2) =>
      match parseFloatPy (String.mk (pyStrip g1.data)) with
      | none => tryLoads ps t st
      | some l =>
        match g2 with
        | none => (some l, st.2)
        | some g2s =>
          match parseFloatPy (String.mk (pyStrip g2s.data)) with
          | none => tryLoads ps t (some l, st.2)
          | some tol => (some l, some tol)

/-- The load and optional tolerance resolved for an index. -/
def resolveLoad (idx : Nat) (t : List Char) : Option ℚ × Option ℚ :=
  tryLoads (load_patterns idx) t (none, none)

/-- One parsed set point of `parse_specifications_text`. -/
structure ParsedSetPoint where
  index : Int
  position : ℚ
  load : ℚ
  tolerance : ℚ
  enabled : Bool
deriving DecidableEq

/-- The body of the set-point loop for one discovered index: append an entry
exactly when both the position and the load resolved, with the tolerance
defaulting to 10.0 and `enabled` true. -/
def specFoldStep (t : List Char) (acc : List ParsedSetPoint) (idx : Nat) :
    List ParsedSetPoint :=
  match resolvePosition idx t, resolveLoad idx t with
  | some p, (some l, tol) => acc ++ [⟨(idx : Int) - 1, p, l, tol.getD 10, true⟩]
  | _, _ => acc

/-- The `set_points` list built by `parse_specifications_text`: one entry per
discovered index with both position and load resolved, 0-based, tolerance
defaulting to 10.0, enabled. -/
def parse_specifications_set_points (text : String) : List ParsedSetPoint :=
  let t := preprocess_specs text
  (set_point_indices t).foldl (specFoldStep t) []

example : parse_specifications_set_points
    "Set Poit-1 in mm: 40.0 mm Set Poit-1 Load In N: 23.6±5%" =
    [⟨0, 40, mkRat 236 10, 5, true⟩] := by decide

example : parse_specifications_set_points
    "Set Point-1 in mm: 40.0 mm Set Point-1 Load In N: 23.6" = [] := by decide

/-! ### `models/data_models.py` and `services/settings_service.py`

`SetPoint` and the set-point list of `SpringSpecification` are embedded with
`ℚ` for the float fields; `SettingsService.update_set_point` becomes a pure
function from the specification to the updated specification. -/

/-- The `SetPoint` dataclass (defaults: tolerance 10.0, enabled). -/
structure SetPoint where
  position_mm : ℚ
  load_n : ℚ
  tolerance_percent : ℚ := 10
  enabled : Bool := true
deriving DecidableEq

/-- The `SpringSpecification` dataclass with its field defaults. -/
structure SpringSpecification where
  part_name : String := "Demo Spring"
  part_number : String := "Demo Spring-1"
  part_id : Int := 28
  free_length_mm : ℚ := 58
  coil_count : ℚ := mkRat 75 10
  wire_dia_mm : ℚ := 3
  outer_dia_mm : ℚ := 32
  set_points : List SetPoint := []
  safety_limit_n : ℚ := 300
  unit : String := "mm"
  enabled : Bool := true
deriving DecidableEq

/-- The body of the padding `while` loop, fuelled (each iteration grows the
list by one, so `index + 1` iterations always suffice). -/
def padSetPointsGo : Nat → List SetPoint → Nat → List SetPoint
  | 0, l, _ => l
  | fuel + 1, l, index =>
    if l.length ≤ index then padSetPointsGo fuel (l ++ [⟨0, 0, 10, true⟩]) index
    else l

/-- `while len(spec.set_points) <= index: spec.set_points.append(SetPoint(0.0, 0.0))`
(the appended points take the dataclass defaults, tolerance 10.0 and
enabled). -/
def padSetPoints (l : List SetPoint) (index : Nat) : List SetPoint :=
  padSetPointsGo (index + 1) l index

/-- `SettingsService.update_set_point`: pad to the index, then overwrite the
four fields of the entry there. -/
def update_set_point (spec : SpringSpecification) (index : Nat)
    (position load tolerance : ℚ) (enabled : Bool) : SpringSpecification :=
  let sps := padSetPoints spec.set_points index
  { spec with set_points := sps.set index ⟨position, load, tolerance, enabled⟩ }

example : padSetPoints [] 1 = [⟨0, 0, 10, true⟩, ⟨0, 0, 10, true⟩] := by decide

example : (update_set_point {} 3 40 (mkRat 236 10) 5 true).set_points =
    [⟨0, 0, 10, true⟩, ⟨0, 0, 10, true⟩, ⟨0, 0, 10, true⟩,
     ⟨40, mkRat 236 10, 5, true⟩] := by decide

theorem padSetPoints_eq_aux : ∀ (k : Nat) (l : List SetPoint) (index : Nat),
    index + 1 - l.length ≤ k →
    padSetPointsGo k l index =
      l ++ List.replicate (index + 1 - l.length) ⟨0, 0, 10, true⟩ := by
  intro k
  induction k with
  | zero =>
    intro l index hk
    rw [padSetPointsGo]
    rw [show index + 1 - l.length = 0 by omega]
    simp
  | succ k ih =>
    intro l index hk
    rw [padSetPointsGo]
    by_cases hle : l.length ≤ index
    · rw [if_pos hle]
      have hih := ih (l ++ [⟨0, 0, 10, true⟩]) index (by simp; omega)
      rw [hih]
      rw [List.append_assoc]
      congr 1
      rw [show index + 1 - l.length =
          (index + 1 - (l ++ [(⟨0, 0, 10, true⟩ : SetPoint)]).length) + 1 by simp; omega]
      rw [List.replicate_succ]
      rfl
    · rw [if_neg hle]
      rw [show index + 1 - l.length = 0 by omega]
      simp

theorem padSetPoints_eq (l : List SetPoint) (index : Nat) :
    padSetPoints l index = l ++ List.replicate (index + 1 - l.length) ⟨0, 0, 10, true⟩ :=
  padSetPoints_eq_aux (index + 1) l index (by omega)

theorem padSetPoints_length (l : List SetPoint) (index : Nat) :
    (padSetPoints l index).length = max l.length (index + 1) := by
  rw [padSetPoints_eq]
  simp
  omega

theorem padSetPoints_get_lt (l : List SetPoint) (index j : Nat) (hj : j < l.length) :
    (padSetPoints l index)[j]? = l[j]? := by
  rw [padSetPoints_eq]
  rw [List.getElem?_append]
  rw [if_pos hj]

theorem padSetPoints_get_pad (l : List SetPoint) (index j : Nat)
    (hj1 : l.length ≤ j) (hj2 : j ≤ index) :
    (padSetPoints l index)[j]? = some ⟨0, 0, 10, true⟩ := by
  rw [padSetPoints_eq]
  rw [List.getElem?_append_right hj1]
  rw [List.getElem?_eq_getElem (by simp; omega)]
  simp

/-! ### Characterization of the set-point fold of `parse_specifications_text` -/

/-- The entry the set-point loop produces for one discovered index: `some`
when both the position and the load resolve, `none` otherwise. -/
def specEntry (t : List Char) (idx : Nat) : Option ParsedSetPoint :=
  match resolvePosition idx t, resolveLoad idx t with
  | some p, (some l, tol) => some ⟨(idx : Int) - 1, p, l, tol.getD 10, true⟩
  | _, _ => none

theorem spec_fold_eq (t : List Char) : ∀ (l : List Nat) (acc : List ParsedSetPoint),
    l.foldl (specFoldStep t) acc = acc ++ l.filterMap (specEntry t) := by
  intro l
  induction l with
  | nil => intro acc; simp
  | cons hd tl ih =>
    intro acc
    rw [List.foldl_cons, ih]
    rcases hp : resolvePosition hd t with _ | p
    · simp [specFoldStep, specEntry, hp]
    · rcases hl : resolveLoad hd t with ⟨lo, tol⟩
      rcases lo with _ | lv
      · simp [specFoldStep, specEntry, hp, hl]
      · simp [specFoldStep, specEntry, hp, hl]

theorem parse_spec_eq (text : String) :
    parse_specifications_set_points text =
      (set_point_indices (preprocess_specs text)).filterMap
        (specEntry (preprocess_specs text)) := by
  have h := spec_fold_eq (preprocess_specs text) (set_point_indices (preprocess_specs text)) []
  rw [List.nil_append] at h
  exact h

theorem specEntry_some_iff {t : List Char} {idx : Nat} :
    (specEntry t idx).isSome ↔
      (resolvePosition idx t).isSome ∧ (resolveLoad idx t).1.isSome := by
  unfold specEntry
  rcases hp : resolvePosition idx t with _ | p
  · simp
  · rcases hl : resolveLoad idx t with ⟨lo, tol⟩
    rcases lo with _ | lv
    · simp
    · simp

theorem specEntry_spec {t : List Char} {idx : Nat} {sp : ParsedSetPoint}
    (h : specEntry t idx = some sp) :
    sp.index = (idx : Int) - 1 ∧
    resolvePosition idx t = some sp.position ∧
    (resolveLoad idx t).1 = some sp.load ∧
    sp.tolerance = ((resolveLoad idx t).2).getD 10 ∧
    sp.enabled = true := by
  unfold specEntry at h
  rcases hp : resolvePosition idx t with _ | p <;> rw [hp] at h
  · exact absurd h (by simp)
  · rcases hl : resolveLoad idx t with ⟨lo, tol⟩
    rw [hl] at h
    rcases lo with _ | lv
    · exact absurd h (by simp)
    · simp only [Option.some.injEq] at h
      subst h
      simp [hl]

/-- C3: for every input text and every set-point index discovered in it, the
parsed set-point list contains an entry with 0-based index `idx - 1` iff both
the position and the load resolved for `idx`; every such entry carries
exactly the resolved position and load, the captured tolerance (defaulting to
10 when none was captured), and `enabled = true`. -/
theorem C3_setpoint_inclusion (text : String) (idx : Nat)
    (hidx : idx ∈ set_point_indices (preprocess_specs text)) :
    ((∃ sp ∈ parse_specifications_set_points text, sp.index = (idx : Int) - 1) ↔
      ((resolvePosition idx (preprocess_specs text)).isSome ∧
       (resolveLoad idx (preprocess_specs text)).1.isSome)) ∧
    (∀ sp ∈ parse_specifications_set_points text, sp.index = (idx : Int) - 1 →
      resolvePosition idx (preprocess_specs text) = some sp.position ∧
      (resolveLoad idx (preprocess_specs text)).1 = some sp.load ∧
      sp.tolerance = ((resolveLoad idx (preprocess_specs text)).2).getD 10 ∧
      sp.enabled = true) := by
  constructor
  · constructor
    · rintro ⟨sp, hsp, hspi⟩
      rw [parse_spec_eq] at hsp
      obtain ⟨idx2, hidx2, hse⟩ := List.mem_filterMap.mp hsp
      obtain ⟨hi, hp, hl, _, _⟩ := specEntry_spec hse
      have heq : idx2 = idx := by omega
      subst heq
      exact ⟨Option.isSome_iff_exists.mpr ⟨_, hp⟩, Option.isSome_iff_exists.mpr ⟨_, hl⟩⟩
    · rintro ⟨hp, hl⟩
      have hs : (specEntry (preprocess_specs text) idx).isSome :=
        specEntry_some_iff.mpr ⟨hp, hl⟩
      obtain ⟨sp, hse⟩ := Option.isSome_iff_exists.mp hs
      refine ⟨sp, ?_, (specEntry_spec hse).1⟩
      rw [parse_spec_eq]
      exact List.mem_filterMap.mpr ⟨idx, hidx, hse⟩
  · intro sp hsp hspi
    rw [parse_spec_eq] at hsp
    obtain ⟨idx2, hidx2, hse⟩ := List.mem_filterMap.mp hsp
    obtain ⟨hi, hp, hl, htol, hen⟩ := specEntry_spec hse
    have heq : idx2 = idx := by omega
    subst heq
    exact ⟨hp, hl, htol, hen⟩

/-- Witness for C3 at a concrete text: index 1 is discovered, and an entry
with 0-based index 0 is included. -/
theorem C3_setpoint_inclusion_witness :
    1 ∈ set_point_indices
      (preprocess_specs "Set Poit-1 in mm: 40.0 mm Set Poit-1 Load In N: 23.6±5%") ∧
    ∃ sp ∈ parse_specifications_set_points
      "Set Poit-1 in mm: 40.0 mm Set Poit-1 Load In N: 23.6±5%",
      sp.index = (1 : Int) - 1 :=
  ⟨by decide,
   (C3_setpoint_inclusion "Set Poit-1 in mm: 40.0 mm Set Poit-1 Load In N: 23.6±5%" 1
      (by decide)).1.mpr (by decide)⟩

/-- C7: the set-point label regular expression
`Set\s+(?:Po(?:i|n)(?:i|t)|Poni)-(\d+)` of `parse_specifications_text` never
matches the standard spelling `Point` (it accepts only the typo variants
`Poii`, `Poit`, `Poni` and `Pont`), so a text whose two set-point blocks are
written `Set Point-1` / `Set Point-2` — each with both position and load
present — yields no set-point entries at all, while the same text with the
typo spelling `Poit` yields both entries. -/
theorem C7_point_label_bug :
    parse_specifications_set_points
      "Set Point-1 in mm: 40.0 mm Set Point-1 Load In N: 23.6 Set Point-2 in mm: 30.0 mm Set Point-2 Load In N: 20.0" = [] ∧
    set_point_indices (preprocess_specs
      "Set Point-1 in mm: 40.0 mm Set Point-1 Load In N: 23.6 Set Point-2 in mm: 30.0 mm Set Point-2 Load In N: 20.0") = [] ∧
    parse_specifications_set_points
      "Set Poit-1 in mm: 40.0 mm Set Poit-1 Load In N: 23.6 Set Poit-2 in mm: 30.0 mm Set Poit-2 Load In N: 20.0" =
      [⟨0, 40, mkRat 236 10, 10, true⟩, ⟨1, 30, 20, 10, true⟩] := by
  set_option maxRecDepth 4000 in decide

/-- C4: the sequence normalizer is idempotent — re-running
`standardize_sequence_data` on its own output (the same list-of-rows shape)
returns an identical row list. -/
theorem C4_normalizer_idempotent (rows : List (List (String × String))) :
    standardize_sequence_data (standardize_sequence_data rows) =
      standardize_sequence_data rows := by
  unfold standardize_sequence_data
  induction rows with
  | nil => rfl
  | cons r rs ih =>
    rw [List.map_cons, List.map_cons, stdRow_idem r, ih]

/-- C5: when no direct sequence-request phrasing matches, the
test-word/test-type combination does not fire, and a conversational pattern
matches, the classifier returns `false` — whatever the number of matching
parameter patterns. -/
theorem C5_conversation_precedence (text : String)
    (h1 : sequence_keywords.any (fun m => m text.data) = false)
    (h2 : (testWordHit text.data && test_type_keywords.any (fun m => m text.data)) = false)
    (h3 : conversation_patterns.any (fun m => m text.data) = true) :
    is_sequence_request text = false := by
  simp [is_sequence_request, h1, h2, h3]

/-- Witness for C5: a greeting carrying two engineering parameters (free
length and wire diameter) is still classified as not a sequence request. -/
theorem C5_conversation_precedence_witness :
    sequence_keywords.any (fun m => m "hello free length 50 wire diameter 2".data) = false ∧
    (testWordHit "hello free length 50 wire diameter 2".data &&
      test_type_keywords.any (fun m => m "hello free length 50 wire diameter 2".data)) = false ∧
    conversation_patterns.any (fun m => m "hello free length 50 wire diameter 2".data) = true ∧
    2 ≤ parameter_count "hello free length 50 wire diameter 2" ∧
    is_sequence_request "hello free length 50 wire diameter 2" = false :=
  ⟨by decide, by decide, by decide, by decide,
   C5_conversation_precedence "hello free length 50 wire diameter 2"
     (by decide) (by decide) (by decide)⟩

/-- C6: for every row whose (renamed) command code maps to a standard
description, the normalized description is the standard one — except
`Mv(P)` with a non-empty existing description containing `L1` (or `L2`),
which becomes exactly `L1` (respectively `L2`), falling back to the standard
description otherwise. -/
theorem C6_description_canonicalization (r : List (String × String)) (cmd d : String)
    (hc : dget? (renameRow r) "CMD" = some cmd)
    (hd : description_map cmd = some d) :
    dget? (stdRow r) "Description" =
      some (if cmd = "Mv(P)" ∧ (dget? (renameRow r) "Description").getD "" ≠ "" then
              (if subCS "L1".data ((dget? (renameRow r) "Description").getD "").data
               then "L1"
               else if subCS "L2".data ((dget? (renameRow r) "Description").getD "").data
               then "L2" else d)
            else d) := by
  rw [stdRow_desc_of_cmd hc, descFix_of_map hd]

/-- Witness for C6: a `Mv(P)` row whose description mentions `L2` is
collapsed to exactly `L2`. -/
theorem C6_description_canonicalization_witness :
    dget? (renameRow [("Cmd", "Mv(P)"), ("Description", "go to L2 now")]) "CMD" =
      some "Mv(P)" ∧
    description_map "Mv(P)" = some "Move to Position" ∧
    dget? (stdRow [("Cmd", "Mv(P)"), ("Description", "go to L2 now")]) "Description" =
      some "L2" :=
  ⟨by decide, by decide,
   C6_description_canonicalization [("Cmd", "Mv(P)"), ("Description", "go to L2 now")]
     "Mv(P)" "Move to Position" (by decide) (by decide)⟩

/-- C1 (amended): every row of the normalized table is the standardization of
one input row; it carries all seven canonical columns, its keys are all fixed
points of the column renaming (synonyms are gone), and a canonical column
absent from the renamed input row — with `Description` also requiring that no
`CMD` be present, since a command installs a description — is filled with the
empty string, never a numeric placeholder.  (The original claim's "exactly
the seven canonical fields" is false: keys outside the canonical set are
preserved, see the counterexample.) -/
theorem C1_normalized_row_fields (rows : List (List (String × String)))
    (r₀ : List (String × String)) (h : r₀ ∈ rows) :
    stdRow r₀ ∈ standardize_sequence_data rows ∧
    (∀ col ∈ required_columns, (dget? (stdRow r₀) col).isSome) ∧
    (∀ k ∈ dkeys (stdRow r₀), column_map k = k) ∧
    (∀ col ∈ required_columns, (∀ kv ∈ r₀, column_map kv.1 ≠ col) →
      (col = "Description" → ∀ kv ∈ r₀, column_map kv.1 ≠ "CMD") →
      dget? (stdRow r₀) col = some "") := by
  refine ⟨?_, stdRow_present r₀, (RowOK_stdRow r₀).2, ?_⟩
  · exact List.mem_map.mpr ⟨r₀, h, rfl⟩
  · intro col hcol h1 h2
    exact stdRow_fill_empty hcol h1 h2

/-- Witness for C1 at a one-row table carrying only a command synonym key. -/
theorem C1_normalized_row_fields_witness :
    [("Cmd", "ZF")] ∈ [[("Cmd", "ZF")]] ∧
    (stdRow [("Cmd", "ZF")] ∈ standardize_sequence_data [[("Cmd", "ZF")]] ∧
     (∀ col ∈ required_columns, (dget? (stdRow [("Cmd", "ZF")]) col).isSome) ∧
     (∀ k ∈ dkeys (stdRow [("Cmd", "ZF")]), column_map k = k) ∧
     (∀ col ∈ required_columns, (∀ kv ∈ [("Cmd", "ZF")], column_map kv.1 ≠ col) →
       (col = "Description" → ∀ kv ∈ [("Cmd", "ZF")], column_map kv.1 ≠ "CMD") →
       dget? (stdRow [("Cmd", "ZF")]) col = some "")) :=
  ⟨by decide, C1_normalized_row_fields [[("Cmd", "ZF")]] [("Cmd", "ZF")] (by decide)⟩

/-- Counterexample to C1 as stated: a row with a non-canonical key `Foo`
keeps that eighth key after normalization, so the normalized row does not
have exactly the seven canonical fields. -/
theorem C1_counterexample :
    standardize_sequence_data [[("Foo", "x")]] =
      [[("Foo", "x"), ("Row", ""), ("CMD", ""), ("Description", ""),
        ("Condition", ""), ("Unit", ""), ("Tolerance", ""), ("Speed rpm", "")]] ∧
    "Foo" ∉ required_columns ∧
    ¬ dkeys [("Foo", "x"), ("Row", ""), ("CMD", ""), ("Description", ""),
        ("Condition", ""), ("Unit", ""), ("Tolerance", ""),
        ("Speed rpm", "")] = required_columns := by
  decide

/-- C2 (amended): when the candidate-payload extraction itself returns (the
fenced branch did not capture an empty payload, which makes the source raise
`TypeError`) and the payload fails `json.loads` and the bracket-matching
retry also fails (or finds no bracketed slice), `extract_command_sequence`
returns the EMPTY table — not a single chat row; the chat-row fallback lives
in `APIClientWorker.run`, outside this function.  Outside these hypothesis-
delimited executions the function can raise: `TypeError` on an empty fenced
payload, and uncaught exceptions out of `standardize_sequence_data` when a
parse attempt succeeds on a value that is not a list of scalar-valued dicts
(e.g. `"[NaN]"`, which `json.loads` accepts). -/
theorem C2_parse_failure_empty (text : String) (jc : List Char)
    (h0 : json_content_of text = some jc)
    (h1 : jparse jc = none)
    (h2 : ∀ inner, bracketInner jc = some inner →
      jparse ('[' :: inner ++ [']']) = none) :
    extract_command_sequence text = some [] := by
  simp only [extract_command_sequence]
  rw [h0]
  dsimp only
  rw [h1]
  cases hbi : bracketInner jc with
  | none => rfl
  | some inner =>
    dsimp only
    rw [h2 inner hbi]

/-- Witness for C2: on `"[}"` the payload extraction returns the text itself,
both parse attempts fail (there is no closing bracket, so the retry finds no
slice), and the result is the empty table. -/
theorem C2_parse_failure_empty_witness :
    json_content_of "[\x7d" = some "[\x7d".data ∧
    (jparse "[\x7d".data).isSome = false ∧
    bracketInner "[\x7d".data = none ∧
    extract_command_sequence "[\x7d" = some [] :=
  ⟨by decide, by decide, by decide,
   C2_parse_failure_empty "[\x7d" "[\x7d".data (by decide)
     (Option.not_isSome_iff_eq_none.mp (by decide))
     (fun inner h => by
       rw [show bracketInner "[\x7d".data = none from by decide] at h
       exact Option.noConfusion h)⟩

/-- Counterexample to C2 as stated: on the unparsable payload `"[}"` the
result is the empty table, not a single chat row carrying the original text;
and the function is not total either — an empty fenced payload raises
`TypeError` (`group(1) or group(2)` is `None`), and `"[NaN]"` is accepted by
`json.loads` and then raises out of `standardize_sequence_data` (`none`
marks the raising executions). -/
theorem C2_counterexample :
    extract_command_sequence "[\x7d" = some [] ∧
    extract_command_sequence "[\x7d" ≠
      some [[("Row", "CHAT"), ("CMD", "CHAT"), ("Description", "[\x7d")]] ∧
    extract_command_sequence "```json\n\n```" = none ∧
    extract_command_sequence "[NaN]" = none := by
  decide

/-- C8 (amended): the core text operations are deterministic functions of
their text input EXCEPT for the timestamp that `extract_parameters` stamps
from the wall clock (modelled by the explicit `now` argument): away from the
`Timestamp` key its result does not depend on the environment at all. -/
theorem C8_pure_modulo_timestamp (now1 now2 text : String) :
    (extract_parameters now1 text).filter (fun kv => kv.1 ≠ "Timestamp") =
      (extract_parameters now2 text).filter (fun kv => kv.1 ≠ "Timestamp") := by
  simp only [extract_parameters]
  rw [List.filter_append, List.filter_append]
  congr 1

/-- Counterexample to C8 as stated: with two different wall-clock instants
the same text yields different parameter maps — `extract_parameters` is not
a pure function of its text input. -/
theorem C8_counterexample :
    extract_parameters "2024-01-01 00:00:00" "x" ≠
      extract_parameters "2024-01-02 00:00:00" "x" := by
  decide

/-- C10: updating set point `index` pads the list with default set points
(position 0, load 0, tolerance 10, enabled) until its length exceeds
`index`, so afterwards the list has at least `index + 1` entries, entry
`index` holds exactly the supplied position, load, tolerance and enabled
flag, pre-existing entries at other indices are unchanged, and the padded
entries below `index` are the defaults. -/
theorem C10_update_pads_and_sets (spec : SpringSpecification) (index : Nat)
    (p l tol : ℚ) (e : Bool) :
    index + 1 ≤ (update_set_point spec index p l tol e).set_points.length ∧
    (update_set_point spec index p l tol e).set_points[index]? =
      some ⟨p, l, tol, e⟩ ∧
    (∀ j, j ≠ index → j < spec.set_points.length →
      (update_set_point spec index p l tol e).set_points[j]? =
        spec.set_points[j]?) ∧
    (∀ j, j ≠ index → spec.set_points.length ≤ j → j ≤ index →
      (update_set_point spec index p l tol e).set_points[j]? =
        some ⟨0, 0, 10, true⟩) := by
  have hsp : (update_set_point spec index p l tol e).set_points =
      (padSetPoints spec.set_points index).set index ⟨p, l, tol, e⟩ := rfl
  have hlen : (padSetPoints spec.set_points index).length =
      max spec.set_points.length (index + 1) := padSetPoints_length _ _
  have hidx : index < (padSetPoints spec.set_points index).length := by
    rw [hlen]
    omega
  refine ⟨?_, ?_, ?_, ?_⟩
  · rw [hsp, List.length_set, hlen]
    omega
  · rw [hsp, List.getElem?_set_self hidx]
  · intro j hj hjlen
    rw [hsp, List.getElem?_set_ne (fun h => hj h.symm)]
    exact padSetPoints_get_lt _ _ _ hjlen
  · intro j hj hjge hjle
    rw [hsp, List.getElem?_set_ne (fun h => hj h.symm)]
    exact padSetPoints_get_pad _ _ _ hjge hjle

/-! ### Facts about the parameter map and its formatting (for the round-trip) -/

theorem append_colon_inj : ∀ {xs : List Char} {ys r1 r2 : List Char},
    ':' ∉ xs → ':' ∉ ys → xs ++ ':' :: r1 = ys ++ ':' :: r2 → xs = ys := by
  intro xs
  induction xs with
  | nil =>
    intro ys r1 r2 _ hys h
    cases ys with
    | nil => rfl
    | cons y ys2 =>
      simp only [List.nil_append, List.cons_append, List.cons.injEq] at h
      exact absurd (by simp [← h.1]) hys
  | cons x xs2 ih =>
    intro ys r1 r2 hxs hys h
    cases ys with
    | nil =>
      simp only [List.nil_append, List.cons_append, List.cons.injEq] at h
      exact absurd (by simp [h.1]) hxs
    | cons y ys2 =>
      simp only [List.cons_append, List.cons.injEq] at h
      have h2 : xs2 = ys2 :=
        ih (fun hm => hxs (List.mem_cons_of_mem _ hm))
          (fun hm => hys (List.mem_cons_of_mem _ hm)) h.2
      rw [h.1, h2]

theorem rline_key_inj {k1 k2 v1 v2 : String} (h1 : ':' ∉ k1.data) (h2 : ':' ∉ k2.data)
    (he : k1 ++ ": " ++ v1 = k2 ++ ": " ++ v2) : k1 = k2 := by
  have hd := congrArg String.data he
  simp only [String.data_append] at hd
  have hd2 : k1.data ++ ':' :: (' ' :: v1.data) = k2.data ++ ':' :: (' ' :: v2.data) := by
    simpa using hd
  have hk : k1.data = k2.data := append_colon_inj h1 h2 hd2
  cases k1
  cases k2
  exact congrArg String.mk (by simpa using hk)

theorem format_lines_aux : ∀ (ps : List (String × PValue)) (acc : List String),
    ps.foldl (fun lines kv =>
      if kv.1 = "Timestamp" then lines else lines ++ [rline kv]) acc =
    acc ++ (ps.filter (fun kv => kv.1 ≠ "Timestamp")).map rline := by
  intro ps
  induction ps with
  | nil => intro acc; simp
  | cons kv tl ih =>
    intro acc
    simp only [List.foldl_cons]
    by_cases h : kv.1 = "Timestamp"
    · rw [if_pos h, ih, List.filter_cons, if_neg (by simp [h])]
    · rw [if_neg h, ih, List.filter_cons, if_pos (by simp [h])]
      simp

theorem format_lines_eq (ps : List (String × PValue)) :
    format_parameter_lines ps =
      (ps.filter (fun kv => kv.1 ≠ "Timestamp")).map rline := by
  have h := format_lines_aux ps []
  rw [List.nil_append] at h
  exact h

theorem count_rline_eq_one : ∀ (l : List (String × PValue)),
    (l.map Prod.fst).Nodup → (∀ kv ∈ l, ':' ∉ kv.1.data) →
    ∀ kv ∈ l, (l.map rline).count (rline kv) = 1 := by
  intro l
  induction l with
  | nil => intro _ _ kv hkv; cases hkv
  | cons hd tl ih =>
    intro hnd hcf kv hkv
    rw [List.map_cons] at hnd
    have hhd : hd.1 ∉ tl.map Prod.fst := (List.nodup_cons.mp hnd).1
    have hndtl : (tl.map Prod.fst).Nodup := (List.nodup_cons.mp hnd).2
    have hcftl : ∀ kv2 ∈ tl, ':' ∉ kv2.1.data :=
      fun kv2 h2 => hcf kv2 (List.mem_cons_of_mem _ h2)
    rw [List.map_cons, List.count_cons]
    rcases List.mem_cons.mp hkv with hkv | hkv
    · subst hkv
      have hzero : (tl.map rline).count (rline kv) = 0 := by
        rw [List.count_eq_zero]
        intro hmem
        obtain ⟨kv2, hkv2, heq⟩ := List.mem_map.mp hmem
        have hk : kv2.1 = kv.1 :=
          rline_key_inj (hcftl kv2 hkv2) (hcf kv (List.mem_cons_self _ _)) heq
        exact hhd (hk ▸ List.mem_map_of_mem Prod.fst hkv2)
      rw [hzero]
      simp
    · have hne : rline kv ≠ rline hd := by
        intro heq
        have hk : kv.1 = hd.1 :=
          rline_key_inj (hcftl kv hkv) (hcf hd (List.mem_cons_self _ _)) heq
        exact hhd (hk ▸ List.mem_map_of_mem Prod.fst hkv)
      simp [hne, ih hndtl hcftl kv hkv]
      exact fun h => hne h.symm

/-- The keys `extract_parameters` can ever emit, in emission order. -/
def superKeys : List String :=
  "Test Type" :: (PARAMETER_PATTERNS.map Prod.fst ++ ["Timestamp", "prompt"])

theorem superKeys_nodup : superKeys.Nodup := by decide

theorem superKeys_colonFree : ∀ k ∈ superKeys, ':' ∉ k.data := by decide

theorem paramStep_keys (t : List Char) (acc : List (String × PValue))
    (kv : String × (List Char → Option String)) :
    (paramStep t acc kv).map Prod.fst = acc.map Prod.fst ∨
    (paramStep t acc kv).map Prod.fst = acc.map Prod.fst ++ [kv.1] := by
  unfold paramStep
  cases hr : searchCap kv.2 t with
  | none => exact Or.inl rfl
  | some raw =>
    dsimp only
    split_ifs with h1
    · exact Or.inr (by simp)
    · cases hpf : parseFloatPy (String.mk (pyStrip raw.data)) with
      | some q => exact Or.inr (by simp)
      | none => exact Or.inr (by simp)

theorem keys_foldl_param (t : List Char) :
    ∀ (l : List (String × (List Char → Option String))) (acc : List (String × PValue)),
    ∃ ks, (l.foldl (paramStep t) acc).map Prod.fst = acc.map Prod.fst ++ ks ∧
      List.Sublist ks (l.map Prod.fst) := by
  intro l
  induction l with
  | nil => intro acc; exact ⟨[], by simp, by simp⟩
  | cons hd tl ih =>
    intro acc
    rw [List.foldl_cons]
    obtain ⟨ks, hks, hsub⟩ := ih (paramStep t acc hd)
    rcases paramStep_keys t acc hd with hstep | hstep
    · rw [hstep] at hks
      exact ⟨ks, hks, List.Sublist.cons hd.1 hsub⟩
    · rw [hstep] at hks
      refine ⟨hd.1 :: ks, ?_, List.Sublist.cons₂ hd.1 hsub⟩
      rw [hks]
      simp

theorem extract_parameters_keys (now text : String) :
    List.Sublist ((extract_parameters now text).map Prod.fst) superKeys := by
  obtain ⟨ks, hks, hsub⟩ := keys_foldl_param text.data PARAMETER_PATTERNS
    (if searchWB compressionAt text.data then [("Test Type", PValue.pstr "Compression")]
     else if searchWB tensionAt text.data then [("Test Type", PValue.pstr "Tension")]
     else [])
  have hmap : (extract_parameters now text).map Prod.fst =
      ((if searchWB compressionAt text.data then
          [("Test Type", PValue.pstr "Compression")]
        else if searchWB tensionAt text.data then
          [("Test Type", PValue.pstr "Tension")]
        else []).map Prod.fst ++ ks) ++ ["Timestamp", "prompt"] := by
    simp only [extract_parameters, List.map_append, hks]
    rfl
  have hhead : List.Sublist
      ((if searchWB compressionAt text.data then
          [("Test Type", PValue.pstr "Compression")]
        else if searchWB tensionAt text.data then
          [("Test Type", PValue.pstr "Tension")]
        else []).map Prod.fst) ["Test Type"] := by
    split_ifs <;> simp
  rw [hmap]
  have h1 : List.Sublist
      ((if searchWB compressionAt text.data then
          [("Test Type", PValue.pstr "Compression")]
        else if searchWB tensionAt text.data then
          [("Test Type", PValue.pstr "Tension")]
        else []).map Prod.fst ++ ks)
      ("Test Type" :: PARAMETER_PATTERNS.map Prod.fst) :=
    List.Sublist.append hhead hsub
  have h2 := List.Sublist.append h1 (List.Sublist.refl ["Timestamp", "prompt"])
  simpa [superKeys] using h2

theorem extract_parameters_keys_nodup (now text : String) :
    ((extract_parameters now text).map Prod.fst).Nodup :=
  List.Nodup.sublist (extract_parameters_keys now text) superKeys_nodup

theorem extract_parameters_colonFree (now text : String) :
    ∀ kv ∈ extract_parameters now text, ':' ∉ kv.1.data := by
  intro kv hkv
  exact superKeys_colonFree _
    ((extract_parameters_keys now text).subset (List.mem_map_of_mem Prod.fst hkv))

/-- C9: for every parameter map produced by `extract_parameters`, the
formatter renders every non-timestamp entry as its `Key: value` line exactly
once, never renders a `Timestamp:` line, and renders float values with 3
decimals below 0.1, 2 decimals below 1, 1 decimal otherwise, suffixed `mm` /
`N` / `N/mm` by substring match on the key name. -/
theorem C9_format_roundtrip (now text : String) :
    (∀ kv ∈ extract_parameters now text, kv.1 ≠ "Timestamp" →
      (format_parameter_lines (extract_parameters now text)).count
        (kv.1 ++ ": " ++ renderValue kv.1 kv.2) = 1) ∧
    (∀ v : PValue, ("Timestamp" ++ ": " ++ renderValue "Timestamp" v) ∉
      format_parameter_lines (extract_parameters now text)) ∧
    (∀ kv ∈ extract_parameters now text, ∀ q : ℚ, kv.2 = PValue.pfloat q →
      renderValue kv.1 kv.2 =
        (if q < mkRat 1 10 then fmtFixed 3 q
         else if q < 1 then fmtFixed 2 q else fmtFixed 1 q) ++
        (if subCS "Length".data kv.1.data ∨ subCS "Diameter".data kv.1.data then " mm"
         else if subCS "Force".data kv.1.data ∨ subCS "Load".data kv.1.data then " N"
         else if subCS "Rate".data kv.1.data then " N/mm" else "")) := by
  have hsubf : List.Sublist
      ((extract_parameters now text).filter (fun kv => kv.1 ≠ "Timestamp"))
      (extract_parameters now text) := List.filter_sublist _
  have hnd : (((extract_parameters now text).filter
      (fun kv => kv.1 ≠ "Timestamp")).map Prod.fst).Nodup :=
    List.Nodup.sublist (List.Sublist.map Prod.fst hsubf)
      (extract_parameters_keys_nodup now text)
  have hcf : ∀ kv ∈ (extract_parameters now text).filter
      (fun kv => kv.1 ≠ "Timestamp"), ':' ∉ kv.1.data :=
    fun kv h => extract_parameters_colonFree now text kv (hsubf.subset h)
  refine ⟨?_, ?_, ?_⟩
  · intro kv hkv hne
    rw [format_lines_eq]
    exact count_rline_eq_one _ hnd hcf kv
      (List.mem_filter.mpr ⟨hkv, by simpa using hne⟩)
  · intro v hmem
    rw [format_lines_eq] at hmem
    obtain ⟨kv2, hkv2, heq⟩ := List.mem_map.mp hmem
    have hk : kv2.1 = "Timestamp" :=
      rline_key_inj (hcf kv2 hkv2) (by decide) heq
    have hne := (List.mem_filter.mp hkv2).2
    rw [hk] at hne
    simp at hne
  · intro kv hkv q hq
    rw [hq]
    simp only [renderValue]
    split_ifs <;> simp
